import Mathlib

/-!
Verification of the Kubernetes manifest resolution and patch pipeline
(`getManifests` and its stages) of the garden repository.

The repository snapshot contains the integration test suite for
`getManifests` but not the implementation module itself, so the pipeline
is modelled here from the specification (spec.md), with the test suite's
observable expectations fixing the points the spec leaves open (such as
the concatenation order of the three manifest sources and the exact
diagnostic strings).
-/

set_option maxHeartbeats 1000000

namespace Garden

/-- Modelled from the spec: manifests are loosely-typed structured
documents ("a loosely-typed structured document with required fields
`apiVersion`, `kind`, `metadata.name` ... and an arbitrary nested
`spec`/`data` payload"), represented as JSON-like trees.  Object fields
keep their insertion order, as in the JavaScript objects of the missing
implementation. -/
inductive Json where
  | null
  | bool (b : Bool)
  | num (n : Int)
  | str (s : String)
  | arr (items : List Json)
  | obj (fields : List (String × Json))

mutual

/-- Structural size of a JSON document, used as recursion fuel for the
two patch-merge algorithms. -/
def jsize : Json → Nat
  | .null => 1
  | .bool _ => 1
  | .num _ => 1
  | .str _ => 1
  | .arr items => 1 + jsizeList items
  | .obj fields => 1 + jsizeFields fields

/-- Structural size of a JSON array body. -/
def jsizeList : List Json → Nat
  | [] => 0
  | x :: xs => 1 + jsize x + jsizeList xs

/-- Structural size of a JSON object body. -/
def jsizeFields : List (String × Json) → Nat
  | [] => 0
  | kv :: rest => 1 + jsize kv.2 + jsizeFields rest

end

/-- Look a key up in an object body, returning the first binding. -/
def findField (k : String) : List (String × Json) → Option Json
  | [] => none
  | kv :: rest => if kv.1 = k then some kv.2 else findField k rest

/-- Field access on a JSON document (`none` on non-objects). -/
def getField (k : String) : Json → Option Json
  | .obj fs => findField k fs
  | _ => none

/-- Access along a path of object keys. -/
def getPath (ks : List String) (j : Json) : Option Json :=
  match ks with
  | [] => some j
  | k :: rest =>
    match getField k j with
    | some v => getPath rest v
    | none => none

/-- Replace a key's binding in an object body, appending when absent. -/
def setField (k : String) (v : Json) : List (String × Json) → List (String × Json)
  | [] => [(k, v)]
  | kv :: rest => if kv.1 = k then (k, v) :: rest else kv :: setField k v rest

/-- Update the value stored at key `k` of an object (the updater sees an
empty object when the key is missing or the document is not an object). -/
def updateIn (k : String) (f : Json → Json) : Json → Json
  | .obj fs => .obj (setField k (f ((findField k fs).getD (.obj []))) fs)
  | _ => .obj [(k, f (.obj []))]

/-- Set the value stored at key `k` of an object. -/
def setIn (k : String) (v : Json) (j : Json) : Json :=
  updateIn k (fun _ => v) j

theorem findField_setField_self (k : String) (v : Json) (fs : List (String × Json)) :
    findField k (setField k v fs) = some v := by
  induction fs with
  | nil => simp [setField, findField]
  | cons kv rest ih =>
    by_cases h : kv.1 = k
    · simp [setField, h, findField]
    · simp [setField, h, findField, ih]

theorem findField_setField_ne (k k2 : String) (hne : k ≠ k2) (v : Json)
    (fs : List (String × Json)) :
    findField k (setField k2 v fs) = findField k fs := by
  have hne2 : ¬ (k2 = k) := fun h => hne h.symm
  induction fs with
  | nil => simp [setField, findField, hne2]
  | cons kv rest ih =>
    by_cases h : kv.1 = k2
    · have hk : ¬ (kv.1 = k) := by
        rw [h]
        exact hne2
      simp [setField, h, findField, hne2, hk]
    · simp [setField, h, findField, ih]

theorem getField_updateIn_self (k : String) (f : Json → Json) (j : Json) :
    getField k (updateIn k f j) = some (f ((getField k j).getD (.obj []))) := by
  cases j <;> simp [updateIn, getField, findField, findField_setField_self]

theorem getField_updateIn_ne (k k2 : String) (hne : k ≠ k2) (f : Json → Json) (j : Json) :
    getField k (updateIn k2 f j) = getField k j := by
  have hne2 : ¬ (k2 = k) := fun h => hne h.symm
  cases j <;>
    simp [updateIn, getField, findField, findField_setField_ne k k2 hne, hne2]

theorem getField_setIn_self (k : String) (v : Json) (j : Json) :
    getField k (setIn k v j) = some v := by
  simp [setIn, getField_updateIn_self]

theorem getField_setIn_ne (k k2 : String) (hne : k ≠ k2) (v : Json) (j : Json) :
    getField k (setIn k2 v j) = getField k j := by
  simp [setIn, getField_updateIn_ne k k2 hne]

theorem findField_jsize {k : String} {fs : List (String × Json)} {v : Json}
    (h : findField k fs = some v) : jsize v < jsizeFields fs := by
  induction fs with
  | nil => simp [findField] at h
  | cons kv rest ih =>
    simp only [findField] at h
    split at h
    · cases h
      simp [jsizeFields]
      omega
    · have := ih h
      simp [jsizeFields]
      omega

theorem mem_jsizeList {x : Json} {xs : List Json} (h : x ∈ xs) :
    jsize x < jsizeList xs := by
  induction xs with
  | nil => simp at h
  | cons y ys ih =>
    rcases List.mem_cons.mp h with h1 | h2
    · subst h1
      simp [jsizeList]
      omega
    · have := ih h2
      simp [jsizeList]
      omega

/-! ### The two patch-merge algorithms

Modelled from the spec, §4.3: `strategic` (the default) merges objects
key-by-key recursively, merges arrays whose elements all carry a string
`name` field by that key (new elements are added to the list, elements
with a matching key are merged in place), and merges other arrays
positionally; `merge` is plain JSON-merge-patch semantics (objects merge
recursively, any other field present in the patch replaces the target's
field wholesale, arrays included).

Both algorithms are defined through a non-recursive single-level "step"
parameterised by the function used for recursive descent, iterated on a
structural-size fuel; since every descent strictly decreases the size of
the patch side, fuel `jsize patch` always suffices, which the fixpoint
equations below make precise. -/

/-- The string `name` field of a JSON object, if present. -/
def nameFieldStr (j : Json) : Option String :=
  match getField "name" j with
  | some (.str s) => some s
  | _ => none

/-- The merge key of a keyed-list element (empty when absent). -/
def nameStrOf (j : Json) : String := (nameFieldStr j).getD ""

/-- Whether an element can take part in a name-keyed list merge. -/
def isNamedObj (j : Json) : Bool := (nameFieldStr j).isSome

/-- Whether a list merges by the `name` key under the strategic
strategy: it is non-empty and all elements carry a string name. -/
def isNameKeyed (l : List Json) : Bool := !l.isEmpty && l.all isNamedObj

/-- First element of a list carrying the given merge key. -/
def findByName : List Json → String → Option Json
  | [], _ => none
  | x :: xs, n => if nameStrOf x = n then some x else findByName xs n

/-- One level of object merge: every target field is kept, merged via
`rec` with the patch's field of the same key when there is one. -/
def smFieldList (rec : Json → Json → Json) :
    List (String × Json) → List (String × Json) → List (String × Json)
  | [], _ => []
  | kv :: rest, pf =>
    (kv.1, match findField kv.1 pf with
           | some pv => rec kv.2 pv
           | none => kv.2) :: smFieldList rec rest pf

/-- Patch fields absent from the target object, appended after the merged
target fields. -/
def newObjFields (tf pf : List (String × Json)) : List (String × Json) :=
  pf.filter (fun kv => (findField kv.1 tf).isNone)

/-- Name-keyed list merge, target side: each target element with a
matching patch element is merged in place via `rec`. -/
def mergeNamedTargets (rec : Json → Json → Json) :
    List Json → List Json → List Json
  | [], _ => []
  | t :: ts, pa =>
    (match findByName pa (nameStrOf t) with
     | some pe => rec t pe
     | none => t) :: mergeNamedTargets rec ts pa

/-- Name-keyed list merge, patch side: the patch elements whose key
matches no target element; these are the list's new elements. -/
def newNamedItems (ta pa : List Json) : List Json :=
  pa.filter (fun pe => !(ta.any (fun te => nameStrOf te = nameStrOf pe)))

/-- Positional merge of two arrays, leftovers of the longer side kept. -/
def posMerge (rec : Json → Json → Json) : List Json → List Json → List Json
  | ta, [] => ta
  | [], pa => pa
  | t :: ta, p :: pa => rec t p :: posMerge rec ta pa

/-- One level of the strategic merge algorithm. -/
def strategicStep (rec : Json → Json → Json) : Json → Json → Json
  | .obj tf, .obj pf => .obj (smFieldList rec tf pf ++ newObjFields tf pf)
  | .arr ta, .arr pa =>
    if isNameKeyed ta && isNameKeyed pa then
      .arr (newNamedItems ta pa ++ mergeNamedTargets rec ta pa)
    else
      .arr (posMerge rec ta pa)
  | _, p => p

/-- Strategic merge iterated on explicit fuel. -/
def strategicMergeF : Nat → Json → Json → Json
  | 0, _, p => p
  | Nat.succ n, t, p => strategicStep (strategicMergeF n) t p

/-- Modelled from the spec: the `strategic` (default) patch-merge
strategy, `(target, patch) → target'`.  The fuel `jsize patch` exceeds
every possible recursion depth, so the function satisfies the fixpoint
equation `strategicMerge_eq` below. -/
def strategicMerge (t p : Json) : Json := strategicMergeF (jsize p) t p

/-- One level of the JSON-merge-patch algorithm: objects merge
recursively, anything else present in the patch replaces the target. -/
def mergePatchStep (rec : Json → Json → Json) : Json → Json → Json
  | .obj tf, .obj pf => .obj (smFieldList rec tf pf ++ newObjFields tf pf)
  | _, p => p

/-- JSON merge patch iterated on explicit fuel. -/
def jsonMergePatchF : Nat → Json → Json → Json
  | 0, _, p => p
  | Nat.succ n, t, p => mergePatchStep (jsonMergePatchF n) t p

/-- Modelled from the spec: the `merge` patch-merge strategy — "a pure
JSON-merge-patch semantics — any field present in the patch fully
replaces the corresponding field in the target (arrays replaced
wholesale, no positional/keyed merge)". -/
def jsonMergePatch (t p : Json) : Json := jsonMergePatchF (jsize p) t p

theorem jsize_pos (j : Json) : 1 ≤ jsize j := by
  cases j <;> simp [jsize]

theorem findByName_mem {pa : List Json} {n : String} {pe : Json}
    (h : findByName pa n = some pe) : pe ∈ pa := by
  induction pa with
  | nil => simp [findByName] at h
  | cons x xs ih =>
    by_cases hx : nameStrOf x = n
    · rw [findByName, if_pos hx] at h
      cases h
      exact List.mem_cons_self _ _
    · rw [findByName, if_neg hx] at h
      exact List.mem_cons_of_mem x (ih h)

theorem findByName_jsize {pa : List Json} {n : String} {pe : Json}
    (h : findByName pa n = some pe) : jsize pe < jsizeList pa := by
  induction pa with
  | nil => simp [findByName] at h
  | cons x xs ih =>
    simp only [findByName] at h
    split at h
    · cases h
      simp [jsizeList]
      omega
    · have := ih h
      simp [jsizeList]
      omega

theorem smFieldList_congr {r1 r2 : Json → Json → Json}
    (tf pf : List (String × Json))
    (h : ∀ v pv k, findField k pf = some pv → r1 v pv = r2 v pv) :
    smFieldList r1 tf pf = smFieldList r2 tf pf := by
  induction tf with
  | nil => simp [smFieldList]
  | cons kv rest ih =>
    simp only [smFieldList]
    rw [ih]
    congr 2
    cases hf : findField kv.1 pf with
    | none => simp
    | some pv => simp [h kv.2 pv kv.1 hf]

theorem mergeNamedTargets_congr {r1 r2 : Json → Json → Json}
    (ta pa : List Json)
    (h : ∀ v pv n, findByName pa n = some pv → r1 v pv = r2 v pv) :
    mergeNamedTargets r1 ta pa = mergeNamedTargets r2 ta pa := by
  induction ta with
  | nil => simp [mergeNamedTargets]
  | cons t ts ih =>
    simp only [mergeNamedTargets]
    rw [ih]
    congr 1
    cases hf : findByName pa (nameStrOf t) with
    | none => simp
    | some pe => simp [h t pe (nameStrOf t) hf]

theorem posMerge_congr {r1 r2 : Json → Json → Json}
    (ta pa : List Json)
    (h : ∀ v pv, pv ∈ pa → r1 v pv = r2 v pv) :
    posMerge r1 ta pa = posMerge r2 ta pa := by
  induction ta generalizing pa with
  | nil => cases pa <;> simp [posMerge]
  | cons t ts ih =>
    cases pa with
    | nil => simp [posMerge]
    | cons p ps =>
      simp only [posMerge]
      rw [ih ps (fun v pv hm => h v pv (List.mem_cons_of_mem p hm)),
        h t p (List.mem_cons_self p ps)]


theorem strategicStep_congr {r1 r2 : Json → Json → Json} (t p : Json)
    (h : ∀ v pv, jsize pv < jsize p → r1 v pv = r2 v pv) :
    strategicStep r1 t p = strategicStep r2 t p := by
  cases t with
  | obj tf =>
    cases p with
    | obj pf =>
      simp only [strategicStep]
      congr 1
      apply congrArg (fun l => l ++ newObjFields tf pf)
      apply smFieldList_congr
      intro v pv k hfind
      apply h
      have := findField_jsize hfind
      simp [jsize]
      omega
    | null => simp [strategicStep]
    | bool b => simp [strategicStep]
    | num n => simp [strategicStep]
    | str s => simp [strategicStep]
    | arr pa => simp [strategicStep]
  | arr ta =>
    cases p with
    | arr pa =>
      simp only [strategicStep]
      have harr : ∀ pv : Json, pv ∈ pa → jsize pv < jsize (Json.arr pa) := by
        intro pv hm
        have := mem_jsizeList hm
        simp [jsize]
        omega
      split
      · congr 1
        apply congrArg (fun l => newNamedItems ta pa ++ l)
        apply mergeNamedTargets_congr
        intro v pv n hfind
        exact h v pv (harr pv (findByName_mem hfind))
      · congr 1
        apply posMerge_congr
        intro v pv hm
        exact h v pv (harr pv hm)
    | null => simp [strategicStep]
    | bool b => simp [strategicStep]
    | num n => simp [strategicStep]
    | str s => simp [strategicStep]
    | obj pf => simp [strategicStep]
  | null => simp [strategicStep]
  | bool b => simp [strategicStep]
  | num n => simp [strategicStep]
  | str s => simp [strategicStep]

theorem mergePatchStep_congr {r1 r2 : Json → Json → Json} (t p : Json)
    (h : ∀ v pv, jsize pv < jsize p → r1 v pv = r2 v pv) :
    mergePatchStep r1 t p = mergePatchStep r2 t p := by
  cases t with
  | obj tf =>
    cases p with
    | obj pf =>
      simp only [mergePatchStep]
      congr 1
      apply congrArg (fun l => l ++ newObjFields tf pf)
      apply smFieldList_congr
      intro v pv k hfind
      apply h
      have := findField_jsize hfind
      simp [jsize]
      omega
    | null => simp [mergePatchStep]
    | bool b => simp [mergePatchStep]
    | num n => simp [mergePatchStep]
    | str s => simp [mergePatchStep]
    | arr pa => simp [mergePatchStep]
  | null => simp [mergePatchStep]
  | bool b => simp [mergePatchStep]
  | num n => simp [mergePatchStep]
  | str s => simp [mergePatchStep]
  | arr ta => simp [mergePatchStep]

theorem strategicMergeF_congr_aux : ∀ (s : Nat) (p : Json), jsize p = s →
    ∀ (f g : Nat) (t : Json),
    jsize p ≤ f → jsize p ≤ g → strategicMergeF f t p = strategicMergeF g t p := by
  intro s
  induction s using Nat.strong_induction_on with
  | _ s ih =>
  intro p hs f g t hf hg
  subst hs
  have h1 := jsize_pos p
  obtain ⟨f2, rfl⟩ : ∃ f2, f = f2 + 1 := ⟨f - 1, by omega⟩
  obtain ⟨g2, rfl⟩ : ∃ g2, g = g2 + 1 := ⟨g - 1, by omega⟩
  show strategicStep (strategicMergeF f2) t p = strategicStep (strategicMergeF g2) t p
  apply strategicStep_congr
  intro v pv hlt
  exact ih (jsize pv) hlt pv rfl f2 g2 v (by omega) (by omega)

theorem strategicMergeF_congr {p : Json} {f g : Nat} (t : Json)
    (hf : jsize p ≤ f) (hg : jsize p ≤ g) :
    strategicMergeF f t p = strategicMergeF g t p :=
  strategicMergeF_congr_aux (jsize p) p rfl f g t hf hg

/-- The fixpoint equation of the strategic merge: the fuel never runs
out, so `strategicMerge` satisfies its intended recursive equation. -/
theorem strategicMerge_eq (t p : Json) :
    strategicMerge t p = strategicStep strategicMerge t p := by
  have h1 := jsize_pos p
  obtain ⟨n, hn⟩ : ∃ n, jsize p = n + 1 := ⟨jsize p - 1, by omega⟩
  show strategicMergeF (jsize p) t p = _
  rw [hn]
  show strategicStep (strategicMergeF n) t p = strategicStep strategicMerge t p
  apply strategicStep_congr
  intro v pv hlt
  rw [hn] at hlt
  exact strategicMergeF_congr v (by omega) (by omega)

theorem jsonMergePatchF_congr_aux : ∀ (s : Nat) (p : Json), jsize p = s →
    ∀ (f g : Nat) (t : Json),
    jsize p ≤ f → jsize p ≤ g → jsonMergePatchF f t p = jsonMergePatchF g t p := by
  intro s
  induction s using Nat.strong_induction_on with
  | _ s ih =>
  intro p hs f g t hf hg
  subst hs
  have h1 := jsize_pos p
  obtain ⟨f2, rfl⟩ : ∃ f2, f = f2 + 1 := ⟨f - 1, by omega⟩
  obtain ⟨g2, rfl⟩ : ∃ g2, g = g2 + 1 := ⟨g - 1, by omega⟩
  show mergePatchStep (jsonMergePatchF f2) t p = mergePatchStep (jsonMergePatchF g2) t p
  apply mergePatchStep_congr
  intro v pv hlt
  exact ih (jsize pv) hlt pv rfl f2 g2 v (by omega) (by omega)

theorem jsonMergePatchF_congr {p : Json} {f g : Nat} (t : Json)
    (hf : jsize p ≤ f) (hg : jsize p ≤ g) :
    jsonMergePatchF f t p = jsonMergePatchF g t p :=
  jsonMergePatchF_congr_aux (jsize p) p rfl f g t hf hg

/-- The fixpoint equation of the JSON merge patch. -/
theorem jsonMergePatch_eq (t p : Json) :
    jsonMergePatch t p = mergePatchStep jsonMergePatch t p := by
  have h1 := jsize_pos p
  obtain ⟨n, hn⟩ : ∃ n, jsize p = n + 1 := ⟨jsize p - 1, by omega⟩
  show jsonMergePatchF (jsize p) t p = _
  rw [hn]
  show mergePatchStep (jsonMergePatchF n) t p = mergePatchStep jsonMergePatch t p
  apply mergePatchStep_congr
  intro v pv hlt
  rw [hn] at hlt
  exact jsonMergePatchF_congr v (by omega) (by omega)

/-! ### Manifest identity accessors -/

/-- The `kind` of a manifest (empty when absent). -/
def kindOf (m : Json) : String :=
  match getField "kind" m with
  | some (.str s) => s
  | _ => ""

/-- The `apiVersion` of a manifest (empty when absent). -/
def apiVersionOf (m : Json) : String :=
  match getField "apiVersion" m with
  | some (.str s) => s
  | _ => ""

/-- The `metadata.name` of a manifest (empty when absent). -/
def nameOf (m : Json) : String :=
  match getPath ["metadata", "name"] m with
  | some (.str s) => s
  | _ => ""

/-- The `metadata.namespace` of a manifest (empty when absent). -/
def namespaceOf (m : Json) : String :=
  match getPath ["metadata", "namespace"] m with
  | some (.str s) => s
  | _ => ""

/-- Modelled from the spec: the identity key of a manifest used for
duplicate detection — "Identity key = `(kind, name)`". -/
def manifestKey (m : Json) : String × String := (kindOf m, nameOf m)

/-- The string key `"<kind>/<name>"` used in the tracking resource. -/
def keyOf (m : Json) : String := kindOf m ++ "/" ++ nameOf m

/-! ### Provenance, inputs and errors -/

/-- Modelled from the spec: the origin descriptor attached 1:1 to each
manifest prior to deduplication — source kind, originating path or
config file, and positional index. -/
inductive ManifestOrigin where
  | inlineConfig (filename : String) (index : Nat)
  | file (path : String) (index : Nat)
  | kustomize (path : String) (index : Nat)
deriving DecidableEq

/-- A manifest wrapped with its origin descriptor; the wrapper is
discarded before the pipeline's caller sees any output. -/
structure TaggedManifest where
  manifest : Json
  origin : ManifestOrigin

/-- Modelled from the spec: the generator-tool configuration — a base
path for the tool to run in and a user-supplied extra-argument list. -/
structure KustomizeSpec where
  path : String
  extraArgs : List String

/-- Modelled from the spec: which of the two patch-merge algorithms a
patch uses; the default is `strategic`. -/
inductive PatchStrategy where
  | strategic
  | merge
deriving DecidableEq

/-- Modelled from the spec: a user-declared patch,
`{ name, kind, namespace?, strategy (default strategic), patch }`. -/
structure PatchResource where
  name : String
  kind : String
  nspace : Option String := none
  strategy : PatchStrategy := .strategic
  patch : Json

/-- Modelled from the spec: the parts of the resolved deploy action's
spec consumed by the pipeline. -/
structure KubernetesDeploySpec where
  files : List String
  manifests : List Json
  kustomize : Option KustomizeSpec
  patchResources : List PatchResource

/-- Modelled from the spec: the resolved deploy action supplied by the
external action-resolution collaborator — identity for diagnostics, the
base directory manifest paths resolve against, the execution mode used
by the post-processor, and the spec above. -/
structure DeployAction where
  name : String
  configPath : String
  basePath : String
  longDescription : String
  mode : String
  spec : KubernetesDeploySpec

/-- Modelled from the spec: the file system as seen by the file-path
reader — literal-path existence, glob expansion relative to the base
directory, and multi-document parsing of a file's contents. -/
structure FileSystem where
  pathExists : String → Bool
  globFiles : String → String → List String
  readDocs : String → List Json

/-- Modelled from the spec: the external generator tool; `build` is the
parsed multi-document manifest stream of one (blocking) invocation in
the given path with the given extra arguments. -/
structure KustomizeTool where
  build : String → List String → List Json

/-- A detected group of manifests sharing one `(kind, name)` key,
origins ordered later-discovered-first. -/
structure DuplicateGroup where
  kind : String
  name : String
  origins : List ManifestOrigin

/-- Modelled from the spec, §7: the pipeline's fatal error kinds.
(`GeneratorExecutionFailed` is not modelled: the tool collaborator here
is total, and no claim concerns subprocess failure.) -/
inductive PipelineError where
  | duplicateManifest (groups : List DuplicateGroup) (message : String)
  | invalidManifestPath (message : String)
  | generatorArgRejected (message : String)

/-- String containment, expressed on the underlying character lists. -/
def strContains (s sub : String) : Prop :=
  ∃ a b, s.data = a ++ sub.data ++ b

theorem strContains_appendContext (a sub b : String) :
    strContains (a ++ sub ++ b) sub :=
  ⟨a.data, b.data, by simp⟩

theorem strContains_append_right {t : String} (sub : String) (s : String)
    (h : strContains t sub) : strContains (s ++ t) sub := by
  obtain ⟨x, y, hx⟩ := h
  exact ⟨s.data ++ x, y, by simp [hx]⟩

theorem strContains_append_left {s : String} (sub : String) (t : String)
    (h : strContains s sub) : strContains (s ++ t) sub := by
  obtain ⟨x, y, hx⟩ := h
  exact ⟨x, y ++ t.data, by simp [hx]⟩

/-! ### Rendering of diagnostics

The provenance phrases and error/warning texts follow the strings the
integration test suite expects verbatim. -/

/-- The human-readable provenance phrase of one conflicting entry. -/
def renderOrigin (kind name : String) : ManifestOrigin → String
  | .inlineConfig f i =>
    kind ++ " " ++ name ++ " declared inline in the Garden configuration (filename: "
      ++ f ++ ", index: " ++ toString i ++ ")"
  | .file p i =>
    kind ++ " " ++ name ++ " declared in the file " ++ p ++ " (index: " ++ toString i ++ ")"
  | .kustomize p i =>
    kind ++ " " ++ name ++ " generated by Kustomize at path " ++ p
      ++ " (index: " ++ toString i ++ ")"

/-- One bullet line per conflicting origin. -/
def renderOriginLines (kind name : String) : List ManifestOrigin → String
  | [] => ""
  | o :: os => "\n- " ++ renderOrigin kind name o ++ renderOriginLines kind name os

/-- The message block of one duplicate group. -/
def renderGroup (g : DuplicateGroup) : String :=
  "Duplicate manifest definition: " ++ g.kind ++ " named " ++ g.name
    ++ " is declared more than once:\n" ++ renderOriginLines g.kind g.name g.origins

/-- The aggregate duplicate-manifest message. -/
def renderGroups : List DuplicateGroup → String
  | [] => ""
  | g :: gs => renderGroup g ++ renderGroups gs

/-! ### Source readers and gathering -/

/-- Generic order-preserving concatenation of mapped lists. -/
def concatMap {α β : Type} (f : α → List β) : List α → List β
  | [] => []
  | x :: xs => f x ++ concatMap f xs

/-- Order-preserving deduplication (first occurrence wins), with an
accumulator of already-seen elements. -/
def dedupSeen {α : Type} [DecidableEq α] (seen : List α) : List α → List α
  | [] => []
  | x :: xs => if x ∈ seen then dedupSeen seen xs else x :: dedupSeen (x :: seen) xs

/-- A path entry interpreted relative to the action's base directory. -/
def joinPath (base e : String) : String := base ++ "/" ++ e

/-- Modelled from the spec: "each entry is first tried as a literal
existing file; if not found, treated as a glob pattern and expanded". -/
def resolveEntry (fs : FileSystem) (base e : String) : List String :=
  if fs.pathExists (joinPath base e) then [joinPath base e] else fs.globFiles base e

/-- The invalid-path error text, naming the owning action as in the test
suite's expectation. -/
def invalidPathMsg (action : DeployAction) : String :=
  "Invalid manifest file path(s) declared in " ++ action.longDescription

/-- Tag a parsed document stream with origins carrying each document's
positional index. -/
def tagDocsFrom (mk : Nat → ManifestOrigin) : Nat → List Json → List TaggedManifest
  | _, [] => []
  | i, d :: ds => ⟨d, mk i⟩ :: tagDocsFrom mk (i + 1) ds

/-- Modelled from the spec: the file-path reader — every entry must
resolve to at least one file (a literal that does not exist and a glob
matching zero files are both errors naming the owning action, even when
other entries matched), resolved paths are deduplicated, and every
document of every file becomes one tagged manifest. -/
def readFileManifests (fs : FileSystem) (action : DeployAction) :
    Except PipelineError (List TaggedManifest) :=
  if (action.spec.files).any (fun e => (resolveEntry fs action.basePath e).isEmpty) then
    .error (.invalidManifestPath (invalidPathMsg action))
  else
    .ok (concatMap (fun p => tagDocsFrom (fun i => .file p i) 0 (fs.readDocs p))
      (dedupSeen [] (concatMap (resolveEntry fs action.basePath) action.spec.files)))

/-- Modelled from the spec: the inline-list reader. -/
def inlineTagged (action : DeployAction) : List TaggedManifest :=
  tagDocsFrom (fun i => .inlineConfig action.configPath i) 0 action.spec.manifests

/-- The fixed set of generator-tool arguments the pipeline rejects. -/
def disallowedKustomizeArgs : List String := ["-o", "--output", "-h", "--help"]

/-- Whether the generator-tool extra-argument list passes validation. -/
def kustomizeArgsOk (s : KubernetesDeploySpec) : Bool :=
  match s.kustomize with
  | none => true
  | some ks => !(ks.extraArgs.any (fun a => disallowedKustomizeArgs.contains a))

/-- The rejection text the test suite expects. -/
def kustomizeArgsErrMsg : String :=
  "kustomize.extraArgs must not include any of -o, --output, -h, --help"

/-- Modelled from the spec: the generator-tool reader's output, tagged
with the tool's run path. Only called after argument validation. -/
def kustomizeTagged (tool : KustomizeTool) (action : DeployAction) : List TaggedManifest :=
  match action.spec.kustomize with
  | none => []
  | some ks =>
    tagDocsFrom (fun i => .kustomize (joinPath action.basePath ks.path) i) 0
      (tool.build ks.path ks.extraArgs)

/-- Modelled from the spec, §4.5: the orchestrator threads the caller's
default namespace into any manifest lacking an explicit one before
detection and patching. -/
def setDefaultNamespace (dn : String) (m : Json) : Json :=
  match getPath ["metadata", "namespace"] m with
  | some (.str _) => m
  | _ => updateIn "metadata" (setIn "namespace" (.str dn)) m

/-- Modelled from the spec: gathering — generator-tool argument
validation happens before anything runs; the three source reader
outputs are concatenated in the fixed discovery order the test suite's
duplicate diagnostics exhibit (inline, file, generator-tool), and the
default namespace is threaded into every gathered manifest. -/
def gatherTagged (fs : FileSystem) (tool : KustomizeTool) (action : DeployAction)
    (dn : String) : Except PipelineError (List TaggedManifest) :=
  if kustomizeArgsOk action.spec then
    match readFileManifests fs action with
    | .error e => .error e
    | .ok fileTs =>
      .ok ((inlineTagged action ++ fileTs ++ kustomizeTagged tool action).map
        (fun t => ⟨setDefaultNamespace dn t.manifest, t.origin⟩))
  else
    .error (.generatorArgRejected kustomizeArgsErrMsg)

/-! ### Duplicate detection -/

/-- The dedup key of a tagged manifest. -/
def taggedKey (t : TaggedManifest) : String × String := manifestKey t.manifest

/-- The `(kind, name)` keys carried by more than one gathered manifest,
in first-discovery order. -/
def dupKeys (ts : List TaggedManifest) : List (String × String) :=
  (dedupSeen [] (ts.map taggedKey)).filter
    (fun k => 1 < (ts.filter (fun t => taggedKey t = k)).length)

/-- The duplicate group of one conflicting key: every conflicting
origin, later-discovered entries listed before earlier ones. -/
def mkDupGroup (ts : List TaggedManifest) (k : String × String) : DuplicateGroup :=
  ⟨k.1, k.2, ((ts.filter (fun t => taggedKey t = k)).reverse).map (fun t => t.origin)⟩

/-- Modelled from the spec, §4.2: the duplicate detector — any
`(kind, name)` group with more than one member fails the whole pipeline
with a single aggregate error listing every conflicting origin; groups
of exactly one proceed, stripped of their provenance wrappers. -/
def checkDuplicates (ts : List TaggedManifest) : Except PipelineError (List Json) :=
  if (dupKeys ts).isEmpty then
    .ok (ts.map (fun t => t.manifest))
  else
    .error (.duplicateManifest ((dupKeys ts).map (mkDupGroup ts))
      (renderGroups ((dupKeys ts).map (mkDupGroup ts))))

/-! ### Patch application -/

/-- Modelled from the spec: a patch matches the manifest with its
`(kind, name)`; the namespace must match only when the patch gives one. -/
def matchesPatch (p : PatchResource) (m : Json) : Bool :=
  kindOf m = p.kind && nameOf m = p.name &&
    (match p.nspace with
     | none => true
     | some n => namespaceOf m = n)

/-- Modelled from the spec's invariant "Patch application never changes
`(kind, name)` matching": the merged document keeps the original kind
and metadata.name. -/
def restoreIdentity (orig merged : Json) : Json :=
  setIn "kind" (.str (kindOf orig)) (updateIn "metadata" (setIn "name" (.str (nameOf orig))) merged)

/-- Dispatch on the declared merge strategy. -/
def applyStrategy : PatchStrategy → Json → Json → Json
  | .strategic, t, p => strategicMerge t p
  | .merge, t, p => jsonMergePatch t p

/-- Apply one patch document to one matched manifest. -/
def patchManifest (p : PatchResource) (m : Json) : Json :=
  restoreIdentity m (applyStrategy p.strategy m p.patch)

/-- The warning text the test suite expects for an unmatched patch. -/
def unmatchedWarning (p : PatchResource) : String :=
  "A patch is defined for a Kubernetes " ++ p.kind ++ " with name " ++ p.name
    ++ " but no Kubernetes resource with a corresponding kind and name found."

/-- Modelled from the spec: one patch either rewrites its matching
manifests in place, or — when nothing matches — is skipped with a
warning and the manifest list is returned unchanged. -/
def applyOnePatch (p : PatchResource) (ms : List Json) : List Json × List String :=
  if ms.any (matchesPatch p) then
    (ms.map (fun m => if matchesPatch p m then patchManifest p m else m), [])
  else
    (ms, [unmatchedWarning p])

/-- Modelled from the spec: patches apply strictly in input order, each
seeing the previous patch's output; warnings accumulate. -/
def applyPatches (ps : List PatchResource) (ms : List Json) : List Json × List String :=
  match ps with
  | [] => (ms, [])
  | p :: rest =>
    let r1 := applyOnePatch p ms
    let r2 := applyPatches rest r1.1
    (r2.1, r1.2 ++ r2.2)

/-! ### Post-processing -/

/-- Modelled from the spec, §4.4: after patching, every manifest is
stamped with the pipeline-owned annotations identifying the owning
action (`garden.io/service`) and its execution mode (`garden.io/mode`),
overwriting any value a patch may have set for those keys. -/
def stampManifest (action : DeployAction) (m : Json) : Json :=
  updateIn "metadata"
    (updateIn "annotations" (fun a =>
      setIn "garden.io/mode" (.str action.mode)
        (setIn "garden.io/service" (.str action.name) a))) m

/-- Modelled from the spec: the `ManifestMetadataEntry` derived per
manifest, namespace reflecting the post-patch value. -/
def metadataEntry (m : Json) : Json :=
  .obj [("apiVersion", .str (apiVersionOf m)),
        ("key", .str (keyOf m)),
        ("kind", .str (kindOf m)),
        ("name", .str (nameOf m)),
        ("namespace", .str (namespaceOf m))]

/-- The deterministic tracking-resource name: a fixed prefix plus the
owning action's name. -/
def metadataConfigMapName (action : DeployAction) : String :=
  "garden-meta-deploy-" ++ action.name

/-- Modelled from the spec: the synthesized tracking ConfigMap whose
data payload carries the keyed map of every emitted resource's
identity. -/
def trackingResource (action : DeployAction) (ms : List Json) : Json :=
  .obj [("apiVersion", .str "v1"),
        ("kind", .str "ConfigMap"),
        ("metadata", .obj [("name", .str (metadataConfigMapName action))]),
        ("data", .obj [("manifestMetadata",
          .obj (ms.map (fun m => (keyOf m, metadataEntry m))))])]

/-- Modelled from the spec: post-processing stamps every manifest and
appends the tracking resource as the final list element. -/
def postProcess (action : DeployAction) (ms : List Json) : List Json :=
  let stamped := ms.map (stampManifest action)
  stamped ++ [trackingResource action stamped]

/-! ### The pipeline orchestrator -/

/-- The pipeline's observable side effects: warnings sent to the logging
collaborator, and whether the generator subprocess was executed. -/
structure PipelineEffects where
  warnings : List String
  kustomizeBuildRan : Bool

/-- A pipeline invocation's outcome: the manifest list or the fatal
error, together with the side effects. -/
structure PipelineResult where
  result : Except PipelineError (List Json)
  effects : PipelineEffects

/-- Modelled from the spec, §4.5 (the missing implementation module
`src/plugins/kubernetes/kubernetes-type/common.ts`): `getManifests`
sequences gathering (with default-namespace threading), duplicate
detection, patch application and post-processing, returning the final
manifest list; any stage error aborts the whole call with no output. -/
def getManifests (fs : FileSystem) (tool : KustomizeTool) (action : DeployAction)
    (defaultNamespace : String) : PipelineResult :=
  let ran := kustomizeArgsOk action.spec && action.spec.kustomize.isSome
  match gatherTagged fs tool action defaultNamespace with
  | .error e => ⟨.error e, ⟨[], ran⟩⟩
  | .ok ts =>
    match checkDuplicates ts with
    | .error e => ⟨.error e, ⟨[], ran⟩⟩
    | .ok ms =>
      let pr := applyPatches action.spec.patchResources ms
      ⟨.ok (postProcess action pr.1), ⟨pr.2, ran⟩⟩

/-! ### General stage lemmas -/

theorem strContains_refl (s : String) : strContains s s :=
  ⟨[], [], by simp⟩

theorem mem_concatMap {α β : Type} {f : α → List β} {l : List α} {a : α} {b : β}
    (ha : a ∈ l) (hb : b ∈ f a) : b ∈ concatMap f l := by
  induction l with
  | nil => simp at ha
  | cons x xs ih =>
    rcases List.mem_cons.mp ha with h1 | h2
    · subst h1
      simp [concatMap]
      exact Or.inl hb
    · simp [concatMap]
      exact Or.inr (by simpa [concatMap] using ih h2)

theorem mem_dedupSeen {α : Type} [DecidableEq α] {a : α} :
    ∀ (seen l : List α), a ∈ dedupSeen seen l ↔ a ∈ l ∧ a ∉ seen := by
  intro seen l
  induction l generalizing seen with
  | nil => simp [dedupSeen]
  | cons x xs ih =>
    by_cases hx : x ∈ seen
    · rw [dedupSeen, if_pos hx, ih]
      constructor
      · rintro ⟨h1, h2⟩
        exact ⟨List.mem_cons_of_mem x h1, h2⟩
      · rintro ⟨h1, h2⟩
        rcases List.mem_cons.mp h1 with h3 | h3
        · subst h3
          exact absurd hx h2
        · exact ⟨h3, h2⟩
    · rw [dedupSeen, if_neg hx]
      by_cases hax : a = x
      · subst hax
        simp [ih]
        intro h
        exact absurd h hx
      · simp [hax, ih, List.mem_cons]

theorem nodup_dedupSeen {α : Type} [DecidableEq α] :
    ∀ (seen l : List α), (dedupSeen seen l).Nodup := by
  intro seen l
  induction l generalizing seen with
  | nil => simp [dedupSeen]
  | cons x xs ih =>
    by_cases hx : x ∈ seen
    · rw [dedupSeen, if_pos hx]
      exact ih seen
    · rw [dedupSeen, if_neg hx]
      refine List.nodup_cons.mpr ⟨?_, ih (x :: seen)⟩
      intro hmem
      have := (mem_dedupSeen (x :: seen) xs).mp hmem
      exact this.2 (List.mem_cons_self x seen)

/-! ### Claims about generator-tool argument validation (C7) -/

/-- **C7.** For every generator-tool invocation whose extraArgs list
contains any of `-o`, `--output`, `-h`, or `--help`, the pipeline fails
with a GeneratorArgRejected error before the subprocess is spawned, so
the external tool is never executed. -/
theorem extraArgs_rejected_before_spawn (fs : FileSystem) (tool : KustomizeTool)
    (action : DeployAction) (dn : String) (ks : KustomizeSpec)
    (hks : action.spec.kustomize = some ks)
    (a : String) (ha : a ∈ ks.extraArgs) (hda : a ∈ disallowedKustomizeArgs) :
    (getManifests fs tool action dn).result
        = .error (.generatorArgRejected kustomizeArgsErrMsg)
      ∧ (getManifests fs tool action dn).effects.kustomizeBuildRan = false := by
  have hok : kustomizeArgsOk action.spec = false := by
    rw [kustomizeArgsOk, hks]
    simp only [Bool.not_eq_true']
    rw [Bool.not_eq_eq_eq_not, Bool.not_false]
    exact List.any_eq_true.mpr ⟨a, ha, by simpa using hda⟩
  constructor
  · simp [getManifests, gatherTagged, hok]
  · simp [getManifests, gatherTagged, hok]

/-- Witness for C7: a concrete action whose kustomize extra-arguments
contain `-h` is rejected and the tool does not run. -/
def fsEmpty : FileSystem := ⟨fun _ => false, fun _ _ => [], fun _ => []⟩

/-- A generator tool that yields no manifests, for concrete runs. -/
def toolEmpty : KustomizeTool := ⟨fun _ _ => []⟩

/-- Concrete action for the C7 witness. -/
def actionC7 : DeployAction :=
  ⟨"hello-world", "/project/garden.yml", "/project",
   "Deploy type=kubernetes name=hello-world", "default",
   ⟨[], [], some ⟨"k8s", ["-h"]⟩, []⟩⟩

theorem extraArgs_rejected_before_spawn_witness :
    (getManifests fsEmpty toolEmpty actionC7 "foobar").result
        = .error (.generatorArgRejected kustomizeArgsErrMsg)
      ∧ (getManifests fsEmpty toolEmpty actionC7 "foobar").effects.kustomizeBuildRan = false :=
  extraArgs_rejected_before_spawn fsEmpty toolEmpty actionC7 "foobar"
    ⟨"k8s", ["-h"]⟩ rfl "-h" (by decide) (by decide)

/-! ### Claims about file-path resolution errors (C8) -/

/-- **C8.** For every files list containing a glob entry that matches
zero files on disk (equally, a literal entry naming a missing file, which
falls through to a glob matching nothing), the pipeline fails with an
InvalidManifestPath error naming the owning action, even when other
entries in the same list resolved to existing files; no manifest list is
returned. -/
theorem glob_without_matches_fails (fs : FileSystem) (tool : KustomizeTool)
    (action : DeployAction) (dn : String) (e : String)
    (he : e ∈ action.spec.files)
    (hres : resolveEntry fs action.basePath e = [])
    (hok : kustomizeArgsOk action.spec = true) :
    (getManifests fs tool action dn).result
        = .error (.invalidManifestPath (invalidPathMsg action))
      ∧ strContains (invalidPathMsg action) action.longDescription := by
  have hfail : (action.spec.files).any
      (fun e2 => (resolveEntry fs action.basePath e2).isEmpty) = true :=
    List.any_eq_true.mpr ⟨e, he, by simp [hres]⟩
  have hread : readFileManifests fs action
      = .error (.invalidManifestPath (invalidPathMsg action)) := by
    simp [readFileManifests, hfail]
  constructor
  · simp [getManifests, gatherTagged, hok, hread]
  · exact strContains_append_right _ _ (strContains_refl _)

/-- Concrete action for the C8 witness: one glob entry matching nothing
next to one literal entry that resolves. -/
def fsC8 : FileSystem :=
  ⟨fun p => p = "/project/deployment.yaml",
   fun _ _ => [],
   fun p => if p = "/project/deployment.yaml"
     then [.obj [("apiVersion", .str "apps/v1"), ("kind", .str "Deployment"),
                 ("metadata", .obj [("name", .str "busybox-deployment")])]]
     else []⟩

/-- Concrete action for the C8 witness. -/
def actionC8 : DeployAction :=
  ⟨"with-build-action", "/project/garden.yml", "/project",
   "Deploy type=kubernetes name=with-build-action", "default",
   ⟨["deployment.yaml", "./**/manifests/*.yaml"], [], none, []⟩⟩

theorem glob_without_matches_fails_witness :
    (getManifests fsC8 toolEmpty actionC8 "foobar").result
        = .error (.invalidManifestPath (invalidPathMsg actionC8))
      ∧ strContains (invalidPathMsg actionC8) actionC8.longDescription :=
  glob_without_matches_fails fsC8 toolEmpty actionC8 "foobar" "./**/manifests/*.yaml"
    (by decide) rfl rfl

/-! ### Claims about the synthesized tracking resource's position (C10) -/

/-- **C10.** For every successful invocation in which the action declares
at least one manifest (via files, inline, or the generator tool), the
synthesized tracking ConfigMap — whose metadata.name is the fixed prefix
"garden-meta-deploy-" followed by the action name — is the last element
of the returned manifest list. -/
theorem tracking_configmap_is_last (fs : FileSystem) (tool : KustomizeTool)
    (action : DeployAction) (dn : String) (out : List Json)
    (hres : (getManifests fs tool action dn).result = .ok out)
    (_hdecl : action.spec.manifests ≠ [] ∨ action.spec.files ≠ []
      ∨ action.spec.kustomize.isSome = true) :
    ∃ ms, out = ms ++ [trackingResource action ms]
      ∧ out.getLast? = some (trackingResource action ms)
      ∧ kindOf (trackingResource action ms) = "ConfigMap"
      ∧ nameOf (trackingResource action ms) = "garden-meta-deploy-" ++ action.name := by
  cases hg : gatherTagged fs tool action dn with
  | error e =>
    simp [getManifests, hg] at hres
  | ok ts =>
    cases hd : checkDuplicates ts with
    | error e =>
      simp [getManifests, hg, hd] at hres
    | ok ms0 =>
      simp only [getManifests, hg, hd] at hres
      rw [Except.ok.injEq] at hres
      refine ⟨(applyPatches action.spec.patchResources ms0).1.map (stampManifest action),
        ?_, ?_, rfl, rfl⟩
      · rw [← hres]
        rfl
      · rw [← hres]
        exact List.getLast?_concat _

/-- Concrete inline ConfigMap manifest used by several witnesses. -/
def cmW : Json :=
  .obj [("apiVersion", .str "v1"), ("kind", .str "ConfigMap"),
        ("metadata", .obj [("name", .str "test-configmap")]),
        ("data", .obj [("hello", .str "world")])]

/-- Concrete action for the C10 witness. -/
def actionC10 : DeployAction :=
  ⟨"deploy-action", "/project/garden.yml", "/project",
   "Deploy type=kubernetes name=deploy-action", "default",
   ⟨[], [cmW], none, []⟩⟩

theorem tracking_configmap_is_last_witness :
    ∃ ms, postProcess actionC10 [setDefaultNamespace "foobar" cmW]
        = ms ++ [trackingResource actionC10 ms]
      ∧ (postProcess actionC10 [setDefaultNamespace "foobar" cmW]).getLast?
        = some (trackingResource actionC10 ms)
      ∧ kindOf (trackingResource actionC10 ms) = "ConfigMap"
      ∧ nameOf (trackingResource actionC10 ms) = "garden-meta-deploy-" ++ actionC10.name :=
  tracking_configmap_is_last fsEmpty toolEmpty actionC10 "foobar"
    (postProcess actionC10 [setDefaultNamespace "foobar" cmW]) rfl
    (Or.inl (by simp [actionC10]))

/-! ### Claims about unmatched patches (C6) -/

/-- **C6.** For every PatchSpec whose (kind, name) matches no manifest in
the deduplicated set, the pipeline does not fail: it returns the full
manifest list with that patch skipped, and emits a warning through the
logging collaborator whose text contains the unmatched resource's kind
and name. -/
theorem unmatched_patch_warns (fs : FileSystem) (tool : KustomizeTool)
    (action : DeployAction) (dn : String) (p : PatchResource)
    (ts : List TaggedManifest) (ms : List Json)
    (hp : action.spec.patchResources = [p])
    (hg : gatherTagged fs tool action dn = .ok ts)
    (hd : checkDuplicates ts = .ok ms)
    (hnm : ∀ m ∈ ms, matchesPatch p m = false) :
    (getManifests fs tool action dn).result = .ok (postProcess action ms)
      ∧ ∃ w ∈ (getManifests fs tool action dn).effects.warnings,
          strContains w p.kind ∧ strContains w p.name ∧ w = unmatchedWarning p := by
  have hany : ms.any (matchesPatch p) = false := by
    rw [List.any_eq_false]
    intro m hm
    simp [hnm m hm]
  have happ : applyPatches action.spec.patchResources ms = (ms, [unmatchedWarning p]) := by
    rw [hp]
    simp [applyPatches, applyOnePatch, hany]
  refine ⟨?_, unmatchedWarning p, ?_, ?_, ?_, rfl⟩
  · simp [getManifests, hg, hd, happ]
  · simp [getManifests, hg, hd, happ]
  · exact ⟨"A patch is defined for a Kubernetes ".data,
      (" with name " ++ p.name
        ++ " but no Kubernetes resource with a corresponding kind and name found.").data,
      by simp [unmatchedWarning]⟩
  · exact ⟨("A patch is defined for a Kubernetes " ++ p.kind ++ " with name ").data,
      " but no Kubernetes resource with a corresponding kind and name found.".data,
      by simp [unmatchedWarning]⟩

/-- Concrete unmatched patch for the C6 witness. -/
def patchC6 : PatchResource :=
  ⟨"non-existent-resource", "Deployment", none, .strategic,
   .obj [("spec", .obj [("replicas", .num 3)])]⟩

/-- Concrete action for the C6 witness. -/
def actionC6 : DeployAction :=
  ⟨"deploy-action", "/project/garden.yml", "/project",
   "Deploy type=kubernetes name=deploy-action", "default",
   ⟨[], [cmW], none, [patchC6]⟩⟩

theorem unmatched_patch_warns_witness :
    (getManifests fsEmpty toolEmpty actionC6 "foobar").result
        = .ok (postProcess actionC6 [setDefaultNamespace "foobar" cmW])
      ∧ ∃ w ∈ (getManifests fsEmpty toolEmpty actionC6 "foobar").effects.warnings,
          strContains w patchC6.kind ∧ strContains w patchC6.name
            ∧ w = unmatchedWarning patchC6 :=
  unmatched_patch_warns fsEmpty toolEmpty actionC6 "foobar" patchC6
    [⟨setDefaultNamespace "foobar" cmW, .inlineConfig "/project/garden.yml" 0⟩]
    [setDefaultNamespace "foobar" cmW] rfl rfl rfl (by decide)

/-! ### Claims about resolved-path deduplication (C9) -/

/-- Whether a tagged manifest was read from the given file path. -/
def isFromPath (p : String) (t : TaggedManifest) : Bool :=
  match t.origin with
  | .file q _ => q = p
  | _ => false

theorem length_filter_tagDocs_self (p : String) :
    ∀ (i : Nat) (docs : List Json),
    ((tagDocsFrom (fun j => .file p j) i docs).filter (isFromPath p)).length
      = docs.length := by
  intro i docs
  induction docs generalizing i with
  | nil => simp [tagDocsFrom]
  | cons d ds ih => simp [tagDocsFrom, isFromPath, ih]

theorem filter_tagDocs_other {q p : String} (hq : ¬ (q = p)) :
    ∀ (i : Nat) (docs : List Json),
    (tagDocsFrom (fun j => .file q j) i docs).filter (isFromPath p) = [] := by
  intro i docs
  induction docs generalizing i with
  | nil => simp [tagDocsFrom]
  | cons d ds ih => simp [tagDocsFrom, isFromPath, hq, ih]

theorem filter_fileDocs_notmem (fs : FileSystem) {p : String} :
    ∀ (qs : List String), p ∉ qs →
    (concatMap (fun q => tagDocsFrom (fun i => .file q i) 0 (fs.readDocs q)) qs).filter
      (isFromPath p) = [] := by
  intro qs
  induction qs with
  | nil => simp [concatMap]
  | cons q rest ih =>
    intro hnm
    have hq : ¬ (q = p) := fun h => hnm (by rw [h]; exact List.mem_cons_self _ _)
    have hrest : p ∉ rest := fun h => hnm (List.mem_cons_of_mem _ h)
    simp only [concatMap, List.filter_append]
    rw [filter_tagDocs_other hq, ih hrest]
    simp

theorem length_filter_fileDocs (fs : FileSystem) {p : String} :
    ∀ (qs : List String), qs.Nodup → p ∈ qs →
    ((concatMap (fun q => tagDocsFrom (fun i => .file q i) 0 (fs.readDocs q)) qs).filter
      (isFromPath p)).length = (fs.readDocs p).length := by
  intro qs
  induction qs with
  | nil => simp
  | cons q rest ih =>
    intro hnd hmem
    have hnd2 := List.nodup_cons.mp hnd
    simp only [concatMap, List.filter_append, List.length_append]
    by_cases hqp : q = p
    · subst hqp
      rw [filter_fileDocs_notmem fs rest hnd2.1, length_filter_tagDocs_self _]
      simp
    · rw [filter_tagDocs_other hqp]
      have hmem2 : p ∈ rest := by
        rcases List.mem_cons.mp hmem with h | h
        · exact absurd h.symm hqp
        · exact h
      simp [ih hnd2.2 hmem2]

/-- **C9.** For every files list in which two entries (e.g. a glob
pattern and a literal path) resolve to the same underlying file, each
document in that file contributes exactly one manifest to the file
reader's output, not two: resolved paths are deduplicated before
parsing. -/
theorem overlapping_path_entries_deduplicated (fs : FileSystem) (action : DeployAction)
    (p e1 e2 : String) (ts : List TaggedManifest)
    (h1 : e1 ∈ action.spec.files) (_h2 : e2 ∈ action.spec.files) (_hne : e1 ≠ e2)
    (hp1 : p ∈ resolveEntry fs action.basePath e1)
    (_hp2 : p ∈ resolveEntry fs action.basePath e2)
    (hok : readFileManifests fs action = .ok ts) :
    (ts.filter (isFromPath p)).length = (fs.readDocs p).length := by
  rw [readFileManifests] at hok
  split at hok
  · cases hok
  · rw [Except.ok.injEq] at hok
    subst hok
    apply length_filter_fileDocs
    · exact nodup_dedupSeen [] _
    · exact (mem_dedupSeen [] _).mpr ⟨mem_concatMap h1 hp1, by simp⟩

/-- Concrete file system for the C9 witness: `deployment.yaml` exists
and is reached both literally and through the `*.yaml` glob. -/
def fsC9 : FileSystem :=
  ⟨fun p => p = "/project/deployment.yaml",
   fun _ pat => if pat = "*.yaml" then ["/project/deployment.yaml"] else [],
   fun p => if p = "/project/deployment.yaml"
     then [.obj [("apiVersion", .str "apps/v1"), ("kind", .str "Deployment"),
                 ("metadata", .obj [("name", .str "busybox-deployment")])]]
     else []⟩

/-- Concrete action for the C9 witness. -/
def actionC9 : DeployAction :=
  ⟨"with-build-action", "/project/garden.yml", "/project",
   "Deploy type=kubernetes name=with-build-action", "default",
   ⟨["*.yaml", "deployment.yaml"], [], none, []⟩⟩

theorem overlapping_path_entries_deduplicated_witness :
    (([⟨.obj [("apiVersion", .str "apps/v1"), ("kind", .str "Deployment"),
              ("metadata", .obj [("name", .str "busybox-deployment")])],
        ManifestOrigin.file "/project/deployment.yaml" 0⟩] :
        List TaggedManifest).filter (isFromPath "/project/deployment.yaml")).length
      = (fsC9.readDocs "/project/deployment.yaml").length :=
  overlapping_path_entries_deduplicated fsC9 actionC9 "/project/deployment.yaml"
    "*.yaml" "deployment.yaml" _ (by decide) (by decide) (by decide)
    (by decide) (by decide) rfl

/-! ### Claims about duplicate detection (C1) -/

theorem strContains_renderLines {o : ManifestOrigin} {os : List ManifestOrigin}
    (kind name : String) (h : o ∈ os) :
    strContains (renderOriginLines kind name os) (renderOrigin kind name o) := by
  induction os with
  | nil => simp at h
  | cons x xs ih =>
    rcases List.mem_cons.mp h with h1 | h2
    · subst h1
      exact ⟨"\n- ".data, (renderOriginLines kind name xs).data,
        by simp [renderOriginLines]⟩
    · rw [renderOriginLines]
      exact strContains_append_right _ _ (ih h2)

theorem strContains_renderGroup {o : ManifestOrigin} {g : DuplicateGroup}
    (h : o ∈ g.origins) :
    strContains (renderGroup g) (renderOrigin g.kind g.name o) := by
  rw [renderGroup]
  exact strContains_append_right _ _ (strContains_renderLines g.kind g.name h)

theorem strContains_renderGroups {g : DuplicateGroup} {x : String} :
    ∀ {gs : List DuplicateGroup}, g ∈ gs → strContains (renderGroup g) x →
    strContains (renderGroups gs) x := by
  intro gs
  induction gs with
  | nil => simp
  | cons y ys ih =>
    intro hmem hsc
    rcases List.mem_cons.mp hmem with h1 | h2
    · subst h1
      exact strContains_append_left _ _ hsc
    · exact strContains_append_right _ _ (ih h2 hsc)

/-- **C1.** For every pair of manifests gathered from any sources
(inline, file, or generator-tool) that share the same (kind, name), the
pipeline fails with a single aggregate DuplicateManifest error whose
text contains the origin descriptor of both conflicting entries, with
later-discovered entries listed before earlier ones, and no manifest
list is returned.  (The ordering is captured on the error's structured
origin lists, which the message renders in order.) -/
theorem duplicate_manifests_fail (fs : FileSystem) (tool : KustomizeTool)
    (action : DeployAction) (dn : String) (ts : List TaggedManifest)
    (pre mid post : List TaggedManifest) (t1 t2 : TaggedManifest)
    (hg : gatherTagged fs tool action dn = .ok ts)
    (hts : ts = pre ++ t1 :: (mid ++ t2 :: post))
    (hkey : taggedKey t2 = taggedKey t1) :
    ∃ gs msg, (getManifests fs tool action dn).result
        = .error (.duplicateManifest gs msg)
      ∧ ∃ g ∈ gs, g.kind = (taggedKey t1).1 ∧ g.name = (taggedKey t1).2
        ∧ List.Sublist [t2.origin, t1.origin] g.origins
        ∧ strContains msg (renderOrigin (taggedKey t1).1 (taggedKey t1).2 t2.origin)
        ∧ strContains msg (renderOrigin (taggedKey t1).1 (taggedKey t1).2 t1.origin) := by
  have hsub : List.Sublist [t1, t2] ts := by
    rw [hts]
    apply List.sublist_append_of_sublist_right
    apply List.Sublist.cons₂
    apply List.sublist_append_of_sublist_right
    exact List.Sublist.cons₂ t2 (List.nil_sublist post)
  have hfil : List.Sublist [t1, t2]
      (ts.filter (fun t => taggedKey t = taggedKey t1)) := by
    have heq : [t1, t2].filter (fun t => taggedKey t = taggedKey t1) = [t1, t2] := by
      simp [List.filter, hkey]
    rw [← heq]
    exact hsub.filter _
  have hlen : 2 ≤ (ts.filter (fun t => taggedKey t = taggedKey t1)).length := by
    have := hfil.length_le
    simpa using this
  have ht1mem : t1 ∈ ts := by
    rw [hts]
    simp
  have hkmem : taggedKey t1 ∈ ts.map taggedKey := List.mem_map.mpr ⟨t1, ht1mem, rfl⟩
  have hded : taggedKey t1 ∈ dedupSeen [] (ts.map taggedKey) :=
    (mem_dedupSeen [] _).mpr ⟨hkmem, by simp⟩
  have hdup : taggedKey t1 ∈ dupKeys ts := by
    rw [dupKeys]
    refine List.mem_filter.mpr ⟨hded, ?_⟩
    simp only [decide_eq_true_eq]
    omega
  have hne_nil : (dupKeys ts).isEmpty = false := by
    cases hdk : dupKeys ts with
    | nil =>
      rw [hdk] at hdup
      simp at hdup
    | cons a l => simp
  have h5 : List.Sublist [t2, t1]
      ((ts.filter (fun t => taggedKey t = taggedKey t1)).reverse) := by
    have := hfil.reverse
    simpa using this
  have horig : List.Sublist [t2.origin, t1.origin]
      ((mkDupGroup ts (taggedKey t1)).origins) := by
    have := h5.map (fun t => t.origin)
    simpa [mkDupGroup] using this
  refine ⟨(dupKeys ts).map (mkDupGroup ts),
    renderGroups ((dupKeys ts).map (mkDupGroup ts)), ?_,
    mkDupGroup ts (taggedKey t1), List.mem_map.mpr ⟨taggedKey t1, hdup, rfl⟩,
    rfl, rfl, horig, ?_, ?_⟩
  · simp [getManifests, hg, checkDuplicates, hne_nil]
  · apply strContains_renderGroups (List.mem_map.mpr ⟨taggedKey t1, hdup, rfl⟩)
    exact strContains_renderGroup (horig.subset (by simp))
  · apply strContains_renderGroups (List.mem_map.mpr ⟨taggedKey t1, hdup, rfl⟩)
    exact strContains_renderGroup (horig.subset (by simp))

/-- First inline Service manifest for the C1 witness. -/
def svcC1a : Json :=
  .obj [("apiVersion", .str "v1"), ("kind", .str "Service"),
        ("metadata", .obj [("name", .str "silly-demo")]),
        ("spec", .obj [("type", .str "ClusterIP")])]

/-- Second inline Service manifest for the C1 witness, sharing the first
one's kind and name. -/
def svcC1b : Json :=
  .obj [("apiVersion", .str "v1"), ("kind", .str "Service"),
        ("metadata", .obj [("name", .str "silly-demo")]),
        ("spec", .obj [("type", .str "NodePort")])]

/-- Concrete action for the C1 witness. -/
def actionC1 : DeployAction :=
  ⟨"duplicates-inline", "/project/garden.yml", "/project",
   "Deploy type=kubernetes name=duplicates-inline", "default",
   ⟨[], [svcC1a, svcC1b], none, []⟩⟩

/-- The first gathered entry of the C1 witness run. -/
def tagC1a : TaggedManifest :=
  ⟨setDefaultNamespace "foobar" svcC1a, .inlineConfig "/project/garden.yml" 0⟩

/-- The second gathered entry of the C1 witness run. -/
def tagC1b : TaggedManifest :=
  ⟨setDefaultNamespace "foobar" svcC1b, .inlineConfig "/project/garden.yml" 1⟩

theorem duplicate_manifests_fail_witness :
    ∃ gs msg, (getManifests fsEmpty toolEmpty actionC1 "foobar").result
        = .error (.duplicateManifest gs msg)
      ∧ ∃ g ∈ gs, g.kind = (taggedKey tagC1a).1 ∧ g.name = (taggedKey tagC1a).2
        ∧ List.Sublist [tagC1b.origin, tagC1a.origin] g.origins
        ∧ strContains msg
            (renderOrigin (taggedKey tagC1a).1 (taggedKey tagC1a).2 tagC1b.origin)
        ∧ strContains msg
            (renderOrigin (taggedKey tagC1a).1 (taggedKey tagC1a).2 tagC1a.origin) :=
  duplicate_manifests_fail fsEmpty toolEmpty actionC1 "foobar" [tagC1a, tagC1b]
    [] [] [] tagC1a tagC1b rfl rfl (by decide)

/-! ### Constructor-level unfolding of the merge algorithms -/

theorem strategicMerge_obj (tf pf : List (String × Json)) :
    strategicMerge (.obj tf) (.obj pf)
      = .obj (smFieldList strategicMerge tf pf ++ newObjFields tf pf) := by
  rw [strategicMerge_eq]
  rfl

theorem strategicMerge_arr (ta pa : List Json) :
    strategicMerge (.arr ta) (.arr pa)
      = if isNameKeyed ta && isNameKeyed pa then
          .arr (newNamedItems ta pa ++ mergeNamedTargets strategicMerge ta pa)
        else
          .arr (posMerge strategicMerge ta pa) := by
  rw [strategicMerge_eq]
  rfl

theorem strategicMerge_to_num (t : Json) (n : Int) :
    strategicMerge t (.num n) = .num n := by
  rw [strategicMerge_eq]
  cases t <;> rfl

theorem strategicMerge_to_str (t : Json) (s : String) :
    strategicMerge t (.str s) = .str s := by
  rw [strategicMerge_eq]
  cases t <;> rfl

theorem jsonMergePatch_obj (tf pf : List (String × Json)) :
    jsonMergePatch (.obj tf) (.obj pf)
      = .obj (smFieldList jsonMergePatch tf pf ++ newObjFields tf pf) := by
  rw [jsonMergePatch_eq]
  rfl

theorem jsonMergePatch_to_num (t : Json) (n : Int) :
    jsonMergePatch t (.num n) = .num n := by
  rw [jsonMergePatch_eq]
  cases t <;> rfl

theorem jsonMergePatch_to_arr (t : Json) (pa : List Json) :
    jsonMergePatch t (.arr pa) = .arr pa := by
  rw [jsonMergePatch_eq]
  cases t <;> rfl

/-! ### Environment lists and the deployment skeleton -/

/-- A container environment entry `{name, value}`. -/
def envEntry (nv : String × Json) : Json :=
  .obj [("name", .str nv.1), ("value", nv.2)]

/-- A container environment list built from name-value pairs. -/
def envList (l : List (String × Json)) : List Json := l.map envEntry

/-- A single container object of a Deployment pod template. -/
def containerObj (cname image : String) (env : List Json) : Json :=
  .obj [("name", .str cname), ("image", .str image), ("env", .arr env)]

/-- A Deployment manifest as a deploy action declares it inline (no
explicit namespace). -/
def deployManifest (dname cname image : String) (replicas : Int)
    (env : List Json) : Json :=
  .obj [("apiVersion", .str "apps/v1"), ("kind", .str "Deployment"),
        ("metadata", .obj [("name", .str dname)]),
        ("spec", .obj [("replicas", .num replicas),
          ("template", .obj [("spec", .obj [("containers",
            .arr [containerObj cname image env])])])])]

/-- The same Deployment after default-namespace threading. -/
def deployManifestNs (dname nsv cname image : String) (replicas : Int)
    (env : List Json) : Json :=
  .obj [("apiVersion", .str "apps/v1"), ("kind", .str "Deployment"),
        ("metadata", .obj [("name", .str dname), ("namespace", .str nsv)]),
        ("spec", .obj [("replicas", .num replicas),
          ("template", .obj [("spec", .obj [("containers",
            .arr [containerObj cname image env])])])])]

/-- The patch payload of the test suite's env-patch scenarios: sets
`spec.replicas` and one container's `env` list. -/
def envPatchDoc (replicas : Int) (cname : String) (env : List Json) : Json :=
  .obj [("spec", .obj [("replicas", .num replicas),
        ("template", .obj [("spec", .obj [("containers",
          .arr [.obj [("name", .str cname), ("env", .arr env)]])])])])]

theorem setDefaultNamespace_deploy (dname nsv cname image : String) (r : Int)
    (env : List Json) :
    setDefaultNamespace nsv (deployManifest dname cname image r env)
      = deployManifestNs dname nsv cname image r env := rfl

theorem nameStrOf_envEntry (nv : String × Json) : nameStrOf (envEntry nv) = nv.1 := rfl

theorem isNamedObj_envEntry (nv : String × Json) : isNamedObj (envEntry nv) = true := rfl

theorem isNameKeyed_envList {l : List (String × Json)} (h : l ≠ []) :
    isNameKeyed (envList l) = true := by
  have hall : ∀ l2 : List (String × Json), (envList l2).all isNamedObj = true := by
    intro l2
    induction l2 with
    | nil => rfl
    | cons x xs ih =>
      rw [envList, List.map_cons, List.all_cons, isNamedObj_envEntry, Bool.true_and]
      exact ih
  cases l with
  | nil => exact absurd rfl h
  | cons x xs =>
    rw [isNameKeyed, hall]
    simp [envList]

theorem findByName_envList_none {l : List (String × Json)} {n : String}
    (h : n ∉ l.map Prod.fst) : findByName (envList l) n = none := by
  induction l with
  | nil => rfl
  | cons x xs ih =>
    have hx : ¬ (x.1 = n) := by
      intro he
      exact h (by simp [he.symm])
    rw [envList, List.map_cons, findByName, nameStrOf_envEntry, if_neg hx]
    exact ih (fun hm => h (by simp at hm ⊢; exact Or.inr hm))

theorem mergeNamedTargets_envList (rec : Json → Json → Json)
    {orig patchEnv : List (String × Json)}
    (hdisj : ∀ nv ∈ orig, nv.1 ∉ patchEnv.map Prod.fst) :
    mergeNamedTargets rec (envList orig) (envList patchEnv) = envList orig := by
  induction orig with
  | nil => rfl
  | cons o os ih =>
    have h1 : findByName (envList patchEnv) (nameStrOf (envEntry o)) = none := by
      rw [nameStrOf_envEntry]
      exact findByName_envList_none (hdisj o (List.mem_cons_self o os))
    show (match findByName (envList patchEnv) (nameStrOf (envEntry o)) with
          | some pe => rec (envEntry o) pe
          | none => envEntry o) :: mergeNamedTargets rec (envList os) (envList patchEnv)
        = envList (o :: os)
    rw [h1, ih (fun nv hnv => hdisj nv (List.mem_cons_of_mem o hnv))]
    rfl

theorem newNamedItems_envList {orig patchEnv : List (String × Json)}
    (hdisj : ∀ nv ∈ patchEnv, nv.1 ∉ orig.map Prod.fst) :
    newNamedItems (envList orig) (envList patchEnv) = envList patchEnv := by
  rw [newNamedItems, List.filter_eq_self]
  intro pe hpe
  obtain ⟨nv, hnv, rfl⟩ := List.mem_map.mp hpe
  have hany : (envList orig).any (fun te => nameStrOf te = nameStrOf (envEntry nv)) = false := by
    rw [List.any_eq_false]
    intro te hte
    obtain ⟨ov, hov, rfl⟩ := List.mem_map.mp hte
    simp only [nameStrOf_envEntry, decide_eq_true_eq]
    intro he
    exact hdisj nv hnv (List.mem_map.mpr ⟨ov, hov, he⟩)
  simp [hany]

/-- Strategic merge at the env-list level: with all patch entry names
new, the patch's entries are added in front and the original entries are
kept untouched. -/
theorem strategicMerge_envArr {orig patchEnv : List (String × Json)}
    (horig : orig ≠ []) (hpe : patchEnv ≠ [])
    (hdisj : ∀ nv ∈ patchEnv, nv.1 ∉ orig.map Prod.fst) :
    strategicMerge (.arr (envList orig)) (.arr (envList patchEnv))
      = .arr (envList patchEnv ++ envList orig) := by
  have hdisj2 : ∀ nv ∈ orig, nv.1 ∉ patchEnv.map Prod.fst := by
    intro ov hov hmem
    obtain ⟨pv, hpv, hpe1⟩ := List.mem_map.mp hmem
    exact hdisj pv hpv (List.mem_map.mpr ⟨ov, hov, hpe1.symm⟩)
  rw [strategicMerge_arr, isNameKeyed_envList horig, isNameKeyed_envList hpe]
  simp [newNamedItems_envList hdisj, mergeNamedTargets_envList strategicMerge hdisj2]

/-- Strategic merge at the containers level: the single patch container
matches the single target container by name and is merged into it in
place; the container's unpatched fields are kept. -/
theorem strategicMerge_containers (cname image : String)
    (origEnv patchEnvJ : List Json) :
    strategicMerge (.arr [containerObj cname image origEnv])
        (.arr [.obj [("name", .str cname), ("env", .arr patchEnvJ)]])
      = .arr [.obj [("name", .str cname), ("image", .str image),
          ("env", strategicMerge (.arr origEnv) (.arr patchEnvJ))]] := by
  rw [strategicMerge_arr]
  have hkeyed : (isNameKeyed [containerObj cname image origEnv]
      && isNameKeyed [Json.obj [("name", .str cname), ("env", .arr patchEnvJ)]]) = true := by
    simp [isNameKeyed, isNamedObj, nameFieldStr, getField, findField, containerObj]
  rw [if_pos hkeyed]
  simp [newNamedItems, mergeNamedTargets, findByName, nameStrOf, nameFieldStr,
    getField, findField, containerObj, strategicMerge_obj, smFieldList,
    newObjFields, strategicMerge_to_str]

/-- Strategic merge of the env patch into the deployment skeleton: the
patch's (new-named) env entries are added in front of the original
entries, `spec.replicas` is taken from the patch, and everything else is
kept. -/
theorem strategicMerge_deploy_env (dname nsv cname image : String) (r r2 : Int)
    (orig patchEnv : List (String × Json))
    (horig : orig ≠ []) (hpe : patchEnv ≠ [])
    (hdisj : ∀ nv ∈ patchEnv, nv.1 ∉ orig.map Prod.fst) :
    strategicMerge (deployManifestNs dname nsv cname image r (envList orig))
        (envPatchDoc r2 cname (envList patchEnv))
      = deployManifestNs dname nsv cname image r2 (envList patchEnv ++ envList orig) := by
  simp only [deployManifestNs, envPatchDoc]
  simp [strategicMerge_obj, strategicMerge_to_num, smFieldList, newObjFields, findField]
  rw [strategicMerge_containers, strategicMerge_envArr horig hpe hdisj]
  simp [containerObj]

/-! ### Pipeline plumbing for single-inline-manifest patch scenarios -/

theorem dupKeys_singleton (t : TaggedManifest) : dupKeys [t] = [] := by
  simp [dupKeys, dedupSeen, List.filter]

theorem checkDuplicates_singleton (t : TaggedManifest) :
    checkDuplicates [t] = .ok [t.manifest] := by
  simp [checkDuplicates, dupKeys_singleton]

/-- An action declaring a single inline manifest and a single patch. -/
def actionWithPatch (aname cpath bpath ldesc amode : String) (m : Json)
    (p : PatchResource) : DeployAction :=
  ⟨aname, cpath, bpath, ldesc, amode, ⟨[], [m], none, [p]⟩⟩

theorem getManifests_single_inline_patch (fs : FileSystem) (tool : KustomizeTool)
    (aname cpath bpath ldesc amode dn : String) (m : Json) (p : PatchResource)
    (hmatch : matchesPatch p (setDefaultNamespace dn m) = true) :
    getManifests fs tool (actionWithPatch aname cpath bpath ldesc amode m p) dn
      = ⟨.ok (postProcess (actionWithPatch aname cpath bpath ldesc amode m p)
          [patchManifest p (setDefaultNamespace dn m)]), ⟨[], false⟩⟩ := by
  have hg : gatherTagged fs tool (actionWithPatch aname cpath bpath ldesc amode m p) dn
      = .ok [⟨setDefaultNamespace dn m, .inlineConfig cpath 0⟩] := by
    simp [gatherTagged, kustomizeArgsOk, actionWithPatch, readFileManifests,
      inlineTagged, kustomizeTagged, tagDocsFrom, concatMap, dedupSeen]
  have hd := checkDuplicates_singleton ⟨setDefaultNamespace dn m, .inlineConfig cpath 0⟩
  have happ : applyPatches [p] [setDefaultNamespace dn m]
      = ([patchManifest p (setDefaultNamespace dn m)], []) := by
    simp [applyPatches, applyOnePatch, hmatch]
  simp only [actionWithPatch] at hg
  simp [getManifests, actionWithPatch, hg, hd, happ, kustomizeArgsOk]

/-! ### Accessors on the final manifests -/

/-- The env list of the first container of a Deployment-shaped manifest. -/
def firstContainerEnv (m : Json) : Option (List Json) :=
  match getPath ["spec", "template", "spec", "containers"] m with
  | some (.arr (c :: _)) =>
    match getField "env" c with
    | some (.arr l) => some l
    | _ => none
  | _ => none

/-- The `spec.replicas` value of a manifest. -/
def replicasOf (m : Json) : Option Json := getPath ["spec", "replicas"] m

/-- The value of one metadata annotation of a manifest. -/
def annotValue (k : String) (m : Json) : Option Json :=
  (getPath ["metadata", "annotations"] m).bind (getField k)

/-- The deployment skeleton after post-processing stamped its two
pipeline-owned annotations. -/
def deployManifestStamped (svc mode dname nsv cname image : String)
    (replicas : Int) (env : List Json) : Json :=
  .obj [("apiVersion", .str "apps/v1"), ("kind", .str "Deployment"),
        ("metadata", .obj [("name", .str dname), ("namespace", .str nsv),
          ("annotations", .obj [("garden.io/service", .str svc),
                                ("garden.io/mode", .str mode)])]),
        ("spec", .obj [("replicas", .num replicas),
          ("template", .obj [("spec", .obj [("containers",
            .arr [containerObj cname image env])])])])]

theorem restoreIdentity_deployNs (orig : Json)
    (hk : kindOf orig = "Deployment")
    (dname nsv cname image : String) (r : Int) (env : List Json)
    (hn : nameOf orig = dname) :
    restoreIdentity orig (deployManifestNs dname nsv cname image r env)
      = deployManifestNs dname nsv cname image r env := by
  simp [restoreIdentity, hk, hn, deployManifestNs, setIn, updateIn, setField,
    findField]

theorem stampManifest_deployNs (action : DeployAction)
    (dname nsv cname image : String) (r : Int) (env : List Json) :
    stampManifest action (deployManifestNs dname nsv cname image r env)
      = deployManifestStamped action.name action.mode dname nsv cname image r env := by
  simp [stampManifest, deployManifestNs, deployManifestStamped, setIn, updateIn,
    setField, findField]

theorem firstContainerEnv_deployStamped (svc mode dname nsv cname image : String)
    (r : Int) (env : List Json) :
    firstContainerEnv (deployManifestStamped svc mode dname nsv cname image r env)
      = some env := rfl

theorem replicasOf_deployStamped (svc mode dname nsv cname image : String)
    (r : Int) (env : List Json) :
    replicasOf (deployManifestStamped svc mode dname nsv cname image r env)
      = some (.num r) := rfl

theorem kindOf_deployNs (dname nsv cname image : String) (r : Int) (env : List Json) :
    kindOf (deployManifestNs dname nsv cname image r env) = "Deployment" := rfl

theorem nameOf_deployNs (dname nsv cname image : String) (r : Int) (env : List Json) :
    nameOf (deployManifestNs dname nsv cname image r env) = dname := rfl

theorem matchesPatch_deployNs (dname nsv cname image : String) (r : Int)
    (env : List Json) (strat : PatchStrategy) (doc : Json) :
    matchesPatch ⟨dname, "Deployment", none, strat, doc⟩
      (deployManifestNs dname nsv cname image r env) = true := by
  simp [matchesPatch, kindOf_deployNs, nameOf_deployNs]

/-- **C2.** For every patch with the default `strategic` strategy whose
payload sets a container `env` list on a manifest whose existing env
list is non-empty, the patch's new env elements are joined with the
existing list (additive merge): every original env entry is still
present in the result together with the patch's entries, rather than the
list being replaced.  (The proof also records that the new entries are
placed in front of the original entries, as the test suite expects.) -/
theorem strategic_env_patch_additive (fs : FileSystem) (tool : KustomizeTool)
    (aname cpath bpath ldesc amode dname nsv cname image : String)
    (r r2 : Int) (orig patchEnv : List (String × Json))
    (horig : orig ≠ []) (hpe : patchEnv ≠ [])
    (hdisj : ∀ nv ∈ patchEnv, nv.1 ∉ orig.map Prod.fst) :
    ∃ tr, (getManifests fs tool (actionWithPatch aname cpath bpath ldesc amode
        (deployManifest dname cname image r (envList orig))
        ⟨dname, "Deployment", none, .strategic,
          envPatchDoc r2 cname (envList patchEnv)⟩) nsv).result
      = .ok [deployManifestStamped aname amode dname nsv cname image r2
          (envList patchEnv ++ envList orig), tr]
    ∧ firstContainerEnv (deployManifestStamped aname amode dname nsv cname image r2
        (envList patchEnv ++ envList orig)) = some (envList patchEnv ++ envList orig)
    ∧ (∀ e ∈ envList orig, e ∈ envList patchEnv ++ envList orig)
    ∧ (∀ e ∈ envList patchEnv, e ∈ envList patchEnv ++ envList orig)
    ∧ envList patchEnv ++ envList orig ≠ envList patchEnv := by
  have hres := getManifests_single_inline_patch fs tool aname cpath bpath ldesc amode nsv
    (deployManifest dname cname image r (envList orig))
    ⟨dname, "Deployment", none, .strategic, envPatchDoc r2 cname (envList patchEnv)⟩
    (by
      rw [setDefaultNamespace_deploy]
      exact matchesPatch_deployNs dname nsv cname image r (envList orig) .strategic
        (envPatchDoc r2 cname (envList patchEnv)))
  rw [setDefaultNamespace_deploy] at hres
  have hpm : patchManifest
      ⟨dname, "Deployment", none, .strategic, envPatchDoc r2 cname (envList patchEnv)⟩
      (deployManifestNs dname nsv cname image r (envList orig))
      = deployManifestNs dname nsv cname image r2 (envList patchEnv ++ envList orig) := by
    show restoreIdentity _ (strategicMerge _ _) = _
    rw [strategicMerge_deploy_env dname nsv cname image r r2 orig patchEnv horig hpe hdisj]
    exact restoreIdentity_deployNs
      (deployManifestNs dname nsv cname image r (envList orig)) rfl
      dname nsv cname image r2 (envList patchEnv ++ envList orig) rfl
  rw [hpm] at hres
  refine ⟨trackingResource (actionWithPatch aname cpath bpath ldesc amode
      (deployManifest dname cname image r (envList orig))
      ⟨dname, "Deployment", none, .strategic, envPatchDoc r2 cname (envList patchEnv)⟩)
      [deployManifestStamped aname amode dname nsv cname image r2
        (envList patchEnv ++ envList orig)],
    ?_, firstContainerEnv_deployStamped _ _ _ _ _ _ _ _, ?_, ?_, ?_⟩
  · rw [hres]
    simp [postProcess, stampManifest_deployNs, actionWithPatch]
  · intro e he
    simp [he]
  · intro e he
    simp [he]
  · intro hcontra
    have hlen := congrArg List.length hcontra
    simp [envList] at hlen
    exact horig hlen

theorem strategic_env_patch_additive_witness :
    ∃ tr, (getManifests fsEmpty toolEmpty (actionWithPatch "deploy-action"
        "/project/garden.yml" "/project" "Deploy type=kubernetes name=deploy-action"
        "default"
        (deployManifest "busybox-deployment" "busybox" "busybox:1.31.1" 1
          (envList [("FOO", .str "banana"), ("BAR", .str ""), ("BAZ", .null)]))
        ⟨"busybox-deployment", "Deployment", none, .strategic,
          envPatchDoc 3 "busybox" (envList [("PATCH", .str "patch-val")])⟩) "foobar").result
      = .ok [deployManifestStamped "deploy-action" "default" "busybox-deployment"
          "foobar" "busybox" "busybox:1.31.1" 3
          (envList [("PATCH", .str "patch-val")]
            ++ envList [("FOO", .str "banana"), ("BAR", .str ""), ("BAZ", .null)]), tr]
    ∧ firstContainerEnv (deployManifestStamped "deploy-action" "default"
        "busybox-deployment" "foobar" "busybox" "busybox:1.31.1" 3
        (envList [("PATCH", .str "patch-val")]
          ++ envList [("FOO", .str "banana"), ("BAR", .str ""), ("BAZ", .null)]))
      = some (envList [("PATCH", .str "patch-val")]
          ++ envList [("FOO", .str "banana"), ("BAR", .str ""), ("BAZ", .null)])
    ∧ (∀ e ∈ envList [("FOO", .str "banana"), ("BAR", .str ""), ("BAZ", .null)],
        e ∈ envList [("PATCH", .str "patch-val")]
          ++ envList [("FOO", .str "banana"), ("BAR", .str ""), ("BAZ", .null)])
    ∧ (∀ e ∈ envList [("PATCH", .str "patch-val")],
        e ∈ envList [("PATCH", .str "patch-val")]
          ++ envList [("FOO", .str "banana"), ("BAR", .str ""), ("BAZ", .null)])
    ∧ envList [("PATCH", .str "patch-val")]
        ++ envList [("FOO", .str "banana"), ("BAR", .str ""), ("BAZ", .null)]
      ≠ envList [("PATCH", .str "patch-val")] :=
  strategic_env_patch_additive fsEmpty toolEmpty "deploy-action" "/project/garden.yml"
    "/project" "Deploy type=kubernetes name=deploy-action" "default"
    "busybox-deployment" "foobar" "busybox" "busybox:1.31.1" 1 3
    [("FOO", .str "banana"), ("BAR", .str ""), ("BAZ", .null)]
    [("PATCH", .str "patch-val")] (by simp) (by simp) (by decide)

/-! ### The `merge` strategy on the deployment skeleton (C3) -/

/-- The deployment skeleton after a `merge`-strategy env patch: the
containers array (and with it the whole env list) is replaced wholesale
by the patch's array. -/
def deployManifestMergePatched (dname nsv cname : String) (replicas : Int)
    (env : List Json) : Json :=
  .obj [("apiVersion", .str "apps/v1"), ("kind", .str "Deployment"),
        ("metadata", .obj [("name", .str dname), ("namespace", .str nsv)]),
        ("spec", .obj [("replicas", .num replicas),
          ("template", .obj [("spec", .obj [("containers",
            .arr [.obj [("name", .str cname), ("env", .arr env)]])])])])]

theorem jsonMergePatch_deploy_env (dname nsv cname image : String) (r r2 : Int)
    (origEnv patchEnvJ : List Json) :
    jsonMergePatch (deployManifestNs dname nsv cname image r origEnv)
        (envPatchDoc r2 cname patchEnvJ)
      = deployManifestMergePatched dname nsv cname r2 patchEnvJ := by
  simp only [deployManifestNs, envPatchDoc, deployManifestMergePatched]
  simp [jsonMergePatch_obj, jsonMergePatch_to_num, jsonMergePatch_to_arr,
    smFieldList, newObjFields, findField, containerObj]

theorem restoreIdentity_deployMergePatched (orig : Json)
    (hk : kindOf orig = "Deployment")
    (dname nsv cname : String) (r : Int) (env : List Json)
    (hn : nameOf orig = dname) :
    restoreIdentity orig (deployManifestMergePatched dname nsv cname r env)
      = deployManifestMergePatched dname nsv cname r env := by
  simp [restoreIdentity, hk, hn, deployManifestMergePatched, setIn, updateIn,
    setField, findField]

/-- The merge-patched deployment after post-processing stamped its
annotations. -/
def deployMergePatchedStamped (svc mode dname nsv cname : String) (replicas : Int)
    (env : List Json) : Json :=
  .obj [("apiVersion", .str "apps/v1"), ("kind", .str "Deployment"),
        ("metadata", .obj [("name", .str dname), ("namespace", .str nsv),
          ("annotations", .obj [("garden.io/service", .str svc),
                                ("garden.io/mode", .str mode)])]),
        ("spec", .obj [("replicas", .num replicas),
          ("template", .obj [("spec", .obj [("containers",
            .arr [.obj [("name", .str cname), ("env", .arr env)]])])])])]

theorem stampManifest_deployMergePatched (action : DeployAction)
    (dname nsv cname : String) (r : Int) (env : List Json) :
    stampManifest action (deployManifestMergePatched dname nsv cname r env)
      = deployMergePatchedStamped action.name action.mode dname nsv cname r env := by
  simp [stampManifest, deployManifestMergePatched, deployMergePatchedStamped,
    setIn, updateIn, setField, findField]

theorem firstContainerEnv_mergePatchedStamped (svc mode dname nsv cname : String)
    (r : Int) (env : List Json) :
    firstContainerEnv (deployMergePatchedStamped svc mode dname nsv cname r env)
      = some env := rfl

theorem replicasOf_mergePatchedStamped (svc mode dname nsv cname : String)
    (r : Int) (env : List Json) :
    replicasOf (deployMergePatchedStamped svc mode dname nsv cname r env)
      = some (.num r) := rfl

/-- **C3.** For every patch with strategy `merge` whose payload sets
`spec.template.spec.containers[0].env` to the patch's env list on a
manifest whose existing env list is non-empty, the resulting env list
equals exactly the patch's list (arrays are replaced wholesale, no
positional or keyed merge). -/
theorem merge_env_patch_replaces (fs : FileSystem) (tool : KustomizeTool)
    (aname cpath bpath ldesc amode dname nsv cname image : String)
    (r r2 : Int) (origEnv patchEnvJ : List Json)
    (_horig : origEnv ≠ []) :
    ∃ tr, (getManifests fs tool (actionWithPatch aname cpath bpath ldesc amode
        (deployManifest dname cname image r origEnv)
        ⟨dname, "Deployment", none, .merge, envPatchDoc r2 cname patchEnvJ⟩) nsv).result
      = .ok [deployMergePatchedStamped aname amode dname nsv cname r2 patchEnvJ, tr]
    ∧ firstContainerEnv (deployMergePatchedStamped aname amode dname nsv cname r2 patchEnvJ)
      = some patchEnvJ
    ∧ replicasOf (deployMergePatchedStamped aname amode dname nsv cname r2 patchEnvJ)
      = some (.num r2) := by
  have hres := getManifests_single_inline_patch fs tool aname cpath bpath ldesc amode nsv
    (deployManifest dname cname image r origEnv)
    ⟨dname, "Deployment", none, .merge, envPatchDoc r2 cname patchEnvJ⟩
    (by
      rw [setDefaultNamespace_deploy]
      exact matchesPatch_deployNs dname nsv cname image r origEnv .merge
        (envPatchDoc r2 cname patchEnvJ))
  rw [setDefaultNamespace_deploy] at hres
  have hpm : patchManifest
      ⟨dname, "Deployment", none, .merge, envPatchDoc r2 cname patchEnvJ⟩
      (deployManifestNs dname nsv cname image r origEnv)
      = deployManifestMergePatched dname nsv cname r2 patchEnvJ := by
    show restoreIdentity _ (jsonMergePatch _ _) = _
    rw [jsonMergePatch_deploy_env dname nsv cname image r r2 origEnv patchEnvJ]
    exact restoreIdentity_deployMergePatched
      (deployManifestNs dname nsv cname image r origEnv) rfl
      dname nsv cname r2 patchEnvJ rfl
  rw [hpm] at hres
  refine ⟨trackingResource (actionWithPatch aname cpath bpath ldesc amode
      (deployManifest dname cname image r origEnv)
      ⟨dname, "Deployment", none, .merge, envPatchDoc r2 cname patchEnvJ⟩)
      [deployMergePatchedStamped aname amode dname nsv cname r2 patchEnvJ],
    ?_, firstContainerEnv_mergePatchedStamped _ _ _ _ _ _ _,
    replicasOf_mergePatchedStamped _ _ _ _ _ _ _⟩
  rw [hres]
  simp [postProcess, stampManifest_deployMergePatched, actionWithPatch]

theorem merge_env_patch_replaces_witness :
    ∃ tr, (getManifests fsEmpty toolEmpty (actionWithPatch "deploy-action"
        "/project/garden.yml" "/project" "Deploy type=kubernetes name=deploy-action"
        "default"
        (deployManifest "busybox-deployment" "busybox" "busybox:1.31.1" 1
          (envList [("FOO", .str "banana"), ("BAR", .str ""), ("BAZ", .null)]))
        ⟨"busybox-deployment", "Deployment", none, .merge,
          envPatchDoc 3 "busybox" (envList [("PATCH", .str "patch-val")])⟩) "foobar").result
      = .ok [deployMergePatchedStamped "deploy-action" "default" "busybox-deployment"
          "foobar" "busybox" 3 (envList [("PATCH", .str "patch-val")]), tr]
    ∧ firstContainerEnv (deployMergePatchedStamped "deploy-action" "default"
        "busybox-deployment" "foobar" "busybox" 3 (envList [("PATCH", .str "patch-val")]))
      = some (envList [("PATCH", .str "patch-val")])
    ∧ replicasOf (deployMergePatchedStamped "deploy-action" "default"
        "busybox-deployment" "foobar" "busybox" 3 (envList [("PATCH", .str "patch-val")]))
      = some (.num 3) :=
  merge_env_patch_replaces fsEmpty toolEmpty "deploy-action" "/project/garden.yml"
    "/project" "Deploy type=kubernetes name=deploy-action" "default"
    "busybox-deployment" "foobar" "busybox" "busybox:1.31.1" 1 3
    (envList [("FOO", .str "banana"), ("BAR", .str ""), ("BAZ", .null)])
    (envList [("PATCH", .str "patch-val")]) (by simp [envList])

/-! ### Post-processing overwrites the pipeline-owned annotations (C5) -/

/-- The patch payload of the test suite's annotation scenario: sets
`spec.replicas` together with the two pipeline-owned annotation keys. -/
def annotPatchDoc (replicas : Int) (svc mode : String) : Json :=
  .obj [("spec", .obj [("replicas", .num replicas)]),
        ("metadata", .obj [("annotations",
          .obj [("garden.io/service", .str svc), ("garden.io/mode", .str mode)])])]

theorem strategicMerge_deploy_annot (dname nsv cname image : String) (r r2 : Int)
    (env : List Json) (a b : String) :
    strategicMerge (deployManifestNs dname nsv cname image r env)
        (annotPatchDoc r2 a b)
      = deployManifestStamped a b dname nsv cname image r2 env := by
  simp only [deployManifestNs, annotPatchDoc, deployManifestStamped]
  simp [strategicMerge_obj, strategicMerge_to_num, smFieldList, newObjFields,
    findField]

theorem restoreIdentity_deployStamped (orig : Json)
    (hk : kindOf orig = "Deployment")
    (svc mode dname nsv cname image : String) (r : Int) (env : List Json)
    (hn : nameOf orig = dname) :
    restoreIdentity orig (deployManifestStamped svc mode dname nsv cname image r env)
      = deployManifestStamped svc mode dname nsv cname image r env := by
  simp [restoreIdentity, hk, hn, deployManifestStamped, setIn, updateIn,
    setField, findField]

theorem stampManifest_deployStamped (action : DeployAction)
    (svc mode dname nsv cname image : String) (r : Int) (env : List Json) :
    stampManifest action (deployManifestStamped svc mode dname nsv cname image r env)
      = deployManifestStamped action.name action.mode dname nsv cname image r env := by
  simp [stampManifest, deployManifestStamped, setIn, updateIn, setField, findField]

theorem annotValue_service_deployStamped (svc mode dname nsv cname image : String)
    (r : Int) (env : List Json) :
    annotValue "garden.io/service"
      (deployManifestStamped svc mode dname nsv cname image r env)
      = some (.str svc) := rfl

theorem annotValue_mode_deployStamped (svc mode dname nsv cname image : String)
    (r : Int) (env : List Json) :
    annotValue "garden.io/mode"
      (deployManifestStamped svc mode dname nsv cname image r env)
      = some (.str mode) := rfl

/-- **C5.** For every patch that sets the pipeline-owned annotation keys
(the owning-service and mode annotations), the post-processor runs after
patch application and overwrites those specific keys with the
pipeline-owned values, while every other field set by the patch
(e.g. spec.replicas) is preserved in the output.  The patch's attempted
annotation values `a`, `b` are arbitrary and do not occur in the
output. -/
theorem annotations_overwritten_after_patch (fs : FileSystem) (tool : KustomizeTool)
    (aname cpath bpath ldesc amode dname nsv cname image : String)
    (r r2 : Int) (env : List Json) (a b : String) :
    ∃ tr, (getManifests fs tool (actionWithPatch aname cpath bpath ldesc amode
        (deployManifest dname cname image r env)
        ⟨dname, "Deployment", none, .strategic, annotPatchDoc r2 a b⟩) nsv).result
      = .ok [deployManifestStamped aname amode dname nsv cname image r2 env, tr]
    ∧ annotValue "garden.io/service"
        (deployManifestStamped aname amode dname nsv cname image r2 env)
      = some (.str aname)
    ∧ annotValue "garden.io/mode"
        (deployManifestStamped aname amode dname nsv cname image r2 env)
      = some (.str amode)
    ∧ replicasOf (deployManifestStamped aname amode dname nsv cname image r2 env)
      = some (.num r2) := by
  have hres := getManifests_single_inline_patch fs tool aname cpath bpath ldesc amode nsv
    (deployManifest dname cname image r env)
    ⟨dname, "Deployment", none, .strategic, annotPatchDoc r2 a b⟩
    (by
      rw [setDefaultNamespace_deploy]
      exact matchesPatch_deployNs dname nsv cname image r env .strategic
        (annotPatchDoc r2 a b))
  rw [setDefaultNamespace_deploy] at hres
  have hpm : patchManifest
      ⟨dname, "Deployment", none, .strategic, annotPatchDoc r2 a b⟩
      (deployManifestNs dname nsv cname image r env)
      = deployManifestStamped a b dname nsv cname image r2 env := by
    show restoreIdentity _ (strategicMerge _ _) = _
    rw [strategicMerge_deploy_annot dname nsv cname image r r2 env a b]
    exact restoreIdentity_deployStamped
      (deployManifestNs dname nsv cname image r env) rfl
      a b dname nsv cname image r2 env rfl
  rw [hpm] at hres
  refine ⟨trackingResource (actionWithPatch aname cpath bpath ldesc amode
      (deployManifest dname cname image r env)
      ⟨dname, "Deployment", none, .strategic, annotPatchDoc r2 a b⟩)
      [deployManifestStamped aname amode dname nsv cname image r2 env],
    ?_, annotValue_service_deployStamped _ _ _ _ _ _ _ _,
    annotValue_mode_deployStamped _ _ _ _ _ _ _ _,
    replicasOf_deployStamped _ _ _ _ _ _ _ _⟩
  rw [hres]
  simp [postProcess, stampManifest_deployStamped, actionWithPatch]

theorem annotations_overwritten_after_patch_witness :
    ∃ tr, (getManifests fsEmpty toolEmpty (actionWithPatch "deploy-action"
        "/project/garden.yml" "/project" "Deploy type=kubernetes name=deploy-action"
        "default"
        (deployManifest "busybox-deployment" "busybox" "busybox:1.31.1" 1
          (envList [("FOO", .str "banana")]))
        ⟨"busybox-deployment", "Deployment", none, .strategic,
          annotPatchDoc 3 "patched-service-annotation" "patched-mode"⟩) "foobar").result
      = .ok [deployManifestStamped "deploy-action" "default" "busybox-deployment"
          "foobar" "busybox" "busybox:1.31.1" 3 (envList [("FOO", .str "banana")]), tr]
    ∧ annotValue "garden.io/service" (deployManifestStamped "deploy-action" "default"
        "busybox-deployment" "foobar" "busybox" "busybox:1.31.1" 3
        (envList [("FOO", .str "banana")]))
      = some (.str "deploy-action")
    ∧ annotValue "garden.io/mode" (deployManifestStamped "deploy-action" "default"
        "busybox-deployment" "foobar" "busybox" "busybox:1.31.1" 3
        (envList [("FOO", .str "banana")]))
      = some (.str "default")
    ∧ replicasOf (deployManifestStamped "deploy-action" "default"
        "busybox-deployment" "foobar" "busybox" "busybox:1.31.1" 3
        (envList [("FOO", .str "banana")]))
      = some (.num 3) :=
  annotations_overwritten_after_patch fsEmpty toolEmpty "deploy-action"
    "/project/garden.yml" "/project" "Deploy type=kubernetes name=deploy-action"
    "default" "busybox-deployment" "foobar" "busybox" "busybox:1.31.1" 1 3
    (envList [("FOO", .str "banana")]) "patched-service-annotation" "patched-mode"

/-! ### The tracking resource's metadata map (C4) -/

theorem getPath_pair (k1 k2 : String) (j : Json) :
    getPath [k1, k2] j = (getField k1 j).bind (getField k2) := by
  cases hf : getField k1 j with
  | none => simp [getPath, hf]
  | some v =>
    cases hg : getField k2 v with
    | none => simp [getPath, hf, hg]
    | some w => simp [getPath, hf, hg]

theorem kindOf_restoreIdentity (orig x : Json) :
    kindOf (restoreIdentity orig x) = kindOf orig := by
  simp [kindOf, restoreIdentity, getField_setIn_self]

theorem nameOf_restoreIdentity (orig x : Json) :
    nameOf (restoreIdentity orig x) = nameOf orig := by
  have h1 : getPath ["metadata", "name"] (restoreIdentity orig x)
      = some (.str (nameOf orig)) := by
    rw [getPath_pair, restoreIdentity,
      getField_setIn_ne "metadata" "kind" (by decide), getField_updateIn_self,
      Option.some_bind, getField_setIn_self]
  rw [nameOf, h1]

theorem manifestKey_patchManifest (p : PatchResource) (m : Json) :
    manifestKey (patchManifest p m) = manifestKey m := by
  simp [manifestKey, patchManifest, kindOf_restoreIdentity, nameOf_restoreIdentity]

theorem kindOf_stampManifest (action : DeployAction) (m : Json) :
    kindOf (stampManifest action m) = kindOf m := by
  simp [kindOf, stampManifest, getField_updateIn_ne "kind" "metadata" (by decide)]

theorem getPath_mdname_stampManifest (action : DeployAction) (m : Json) :
    getPath ["metadata", "name"] (stampManifest action m)
      = getPath ["metadata", "name"] m := by
  rw [getPath_pair, getPath_pair, stampManifest, getField_updateIn_self,
    Option.some_bind, getField_updateIn_ne "name" "annotations" (by decide)]
  cases hmd : getField "metadata" m with
  | none => simp [getField, findField]
  | some md => simp

theorem nameOf_stampManifest (action : DeployAction) (m : Json) :
    nameOf (stampManifest action m) = nameOf m := by
  rw [nameOf, nameOf, getPath_mdname_stampManifest]

theorem manifestKey_stampManifest (action : DeployAction) (m : Json) :
    manifestKey (stampManifest action m) = manifestKey m := by
  simp [manifestKey, kindOf_stampManifest, nameOf_stampManifest]

theorem applyOnePatch_keys (p : PatchResource) (ms : List Json) :
    (applyOnePatch p ms).1.map manifestKey = ms.map manifestKey := by
  rw [applyOnePatch]
  split
  · rw [List.map_map]
    apply List.map_congr_left
    intro m _
    by_cases h : matchesPatch p m
    · simp [h, manifestKey_patchManifest]
    · simp [h]
  · rfl

theorem applyPatches_keys (ps : List PatchResource) :
    ∀ ms : List Json, (applyPatches ps ms).1.map manifestKey = ms.map manifestKey := by
  induction ps with
  | nil => intro ms; rfl
  | cons p rest ih =>
    intro ms
    rw [applyPatches]
    simp only []
    rw [ih, applyOnePatch_keys]

theorem checkDuplicates_nodupKeys {ts : List TaggedManifest} {ms : List Json}
    (h : checkDuplicates ts = .ok ms) : (ms.map manifestKey).Nodup := by
  rw [checkDuplicates] at h
  split at h
  · rename_i hemp
    rw [Except.ok.injEq] at h
    subst h
    have hsame : (List.map (fun t => t.manifest) ts).map manifestKey
        = ts.map taggedKey := by
      rw [List.map_map]
      rfl
    rw [hsame]
    rw [List.nodup_iff_sublist]
    intro k hsub2
    have hsub3 : List.Sublist [k, k] (ts.map taggedKey) := by simpa using hsub2
    obtain ⟨l2, hl2sub, hl2eq⟩ := List.sublist_map_iff.mp hsub3
    cases l2 with
    | nil => simp at hl2eq
    | cons t1 l3 =>
      cases l3 with
      | nil => simp at hl2eq
      | cons t2 l4 =>
        cases l4 with
        | cons t5 l6 => simp at hl2eq
        | nil =>
          simp only [List.map_cons, List.map_nil, List.cons.injEq, and_true] at hl2eq
          obtain ⟨hk1, hk2⟩ := hl2eq
          have hfil : List.Sublist [t1, t2]
              (ts.filter (fun t => taggedKey t = k)) := by
            have heqf : [t1, t2].filter (fun t => taggedKey t = k) = [t1, t2] := by
              simp [List.filter, ← hk1, ← hk2]
            rw [← heqf]
            exact hl2sub.filter _
          have hlen2 : 2 ≤ (ts.filter (fun t => taggedKey t = k)).length := by
            simpa using hfil.length_le
          have hkmem : k ∈ ts.map taggedKey := hsub3.subset (by simp)
          have hdup : k ∈ dupKeys ts := by
            rw [dupKeys]
            refine List.mem_filter.mpr ⟨(mem_dedupSeen [] _).mpr ⟨hkmem, by simp⟩, ?_⟩
            simp only [decide_eq_true_eq]
            omega
          rw [List.isEmpty_iff.mp hemp] at hdup
          simp at hdup
  · cases h

/-- The serialized metadata map stored in the tracking resource's data
payload. -/
def trackingFields (t : Json) : List (String × Json) :=
  match getPath ["data", "manifestMetadata"] t with
  | some (.obj fs) => fs
  | _ => []

theorem trackingFields_trackingResource (action : DeployAction) (ms : List Json) :
    trackingFields (trackingResource action ms)
      = ms.map (fun m => (keyOf m, metadataEntry m)) := rfl

theorem namespace_metadataEntry (m : Json) :
    getField "namespace" (metadataEntry m) = some (.str (namespaceOf m)) := rfl

/-- **C4.** For every successful invocation, the tracking resource's
serialized metadata map has exactly one entry per non-tracking manifest
in the final output, keyed by "kind/name" (the map's entries are, in
order, exactly the pairs `(keyOf m, metadataEntry m)` of the final
manifests, and their `(kind, name)` keys are pairwise distinct), and
each entry's namespace equals that manifest's final post-patch namespace
(a patch that changes a manifest's metadata.namespace is reflected in
the corresponding map entry, as the witness's namespace patches show). -/
theorem tracking_metadata_roundtrip (fs : FileSystem) (tool : KustomizeTool)
    (action : DeployAction) (dn : String) (out : List Json)
    (hres : (getManifests fs tool action dn).result = .ok out) :
    ∃ ms, out = ms ++ [trackingResource action ms]
      ∧ trackingFields (trackingResource action ms)
        = ms.map (fun m => (keyOf m, metadataEntry m))
      ∧ (ms.map manifestKey).Nodup
      ∧ ∀ m ∈ ms,
          (keyOf m, metadataEntry m) ∈ trackingFields (trackingResource action ms)
          ∧ getField "namespace" (metadataEntry m) = some (.str (namespaceOf m)) := by
  cases hg : gatherTagged fs tool action dn with
  | error e =>
    simp [getManifests, hg] at hres
  | ok ts =>
    cases hd : checkDuplicates ts with
    | error e =>
      simp [getManifests, hg, hd] at hres
    | ok ms0 =>
      simp only [getManifests, hg, hd] at hres
      rw [Except.ok.injEq] at hres
      refine ⟨(applyPatches action.spec.patchResources ms0).1.map (stampManifest action),
        ?_, trackingFields_trackingResource _ _, ?_, ?_⟩
      · rw [← hres]
        rfl
      · rw [List.map_map]
        have hpt : (List.map (manifestKey ∘ stampManifest action)
            (applyPatches action.spec.patchResources ms0).1)
            = (applyPatches action.spec.patchResources ms0).1.map manifestKey := by
          apply List.map_congr_left
          intro m _
          exact manifestKey_stampManifest action m
        rw [hpt, applyPatches_keys]
        exact checkDuplicates_nodupKeys hd
      · intro m hm
        refine ⟨?_, namespace_metadataEntry m⟩
        rw [trackingFields_trackingResource]
        exact List.mem_map.mpr ⟨m, hm, rfl⟩

/-- First ConfigMap of the C4 witness run. -/
def cmC4a : Json :=
  .obj [("apiVersion", .str "v1"), ("kind", .str "ConfigMap"),
        ("metadata", .obj [("name", .str "cm-one")]),
        ("data", .obj [("hello", .str "world")])]

/-- Second ConfigMap of the C4 witness run. -/
def cmC4b : Json :=
  .obj [("apiVersion", .str "v1"), ("kind", .str "ConfigMap"),
        ("metadata", .obj [("name", .str "cm-two")]),
        ("data", .obj [("bye", .str "moon")])]

/-- Namespace patch for the first ConfigMap of the C4 witness. -/
def patchC4a : PatchResource :=
  ⟨"cm-one", "ConfigMap", none, .strategic,
   .obj [("metadata", .obj [("namespace", .str "patched-namespace-one")])]⟩

/-- Namespace patch for the second ConfigMap of the C4 witness. -/
def patchC4b : PatchResource :=
  ⟨"cm-two", "ConfigMap", none, .strategic,
   .obj [("metadata", .obj [("namespace", .str "patched-namespace-two")])]⟩

/-- Concrete action for the C4 witness. -/
def actionC4 : DeployAction :=
  ⟨"deploy-action", "/project/garden.yml", "/project",
   "Deploy type=kubernetes name=deploy-action", "default",
   ⟨[], [cmC4a, cmC4b], none, [patchC4a, patchC4b]⟩⟩

theorem tracking_metadata_roundtrip_witness :
    ∃ ms, postProcess actionC4
        [patchManifest patchC4a (setDefaultNamespace "foobar" cmC4a),
         patchManifest patchC4b (setDefaultNamespace "foobar" cmC4b)]
        = ms ++ [trackingResource actionC4 ms]
      ∧ trackingFields (trackingResource actionC4 ms)
        = ms.map (fun m => (keyOf m, metadataEntry m))
      ∧ (ms.map manifestKey).Nodup
      ∧ ∀ m ∈ ms,
          (keyOf m, metadataEntry m) ∈ trackingFields (trackingResource actionC4 ms)
          ∧ getField "namespace" (metadataEntry m) = some (.str (namespaceOf m)) :=
  tracking_metadata_roundtrip fsEmpty toolEmpty actionC4 "foobar"
    (postProcess actionC4
      [patchManifest patchC4a (setDefaultNamespace "foobar" cmC4a),
       patchManifest patchC4b (setDefaultNamespace "foobar" cmC4b)]) rfl

end Garden
